import Mathlib

/-!
Verification of the agent tool-resolution and execution engine
(value reconciler, schema synthesizer, extraction orchestrator,
action executor, execution transcript builder).

The TypeScript source is shallowly embedded: JSON values are an inductive
type (numeric literals are modelled as integers), JavaScript string
operations are modelled over the underlying character lists, fallible
operations return `Except`, and the ambient collaborators (language model,
option loading, action runtime) are explicit environment records.
-/

namespace AgentEngine

/-- JSON values as produced by `JSON.parse` / consumed by `JSON.stringify`.
Object fields keep insertion order, as JavaScript objects do. -/
inductive Json where
  | null : Json
  | bool (b : Bool) : Json
  | num (n : Int) : Json
  | str (s : String) : Json
  | arr (elems : List Json) : Json
  | obj (fields : List (String × Json)) : Json
deriving Repr

/-- A JavaScript value slot: `none` models `undefined`, `some j` a JSON value. -/
abbrev JsValue := Option Json

/-- Association-list lookup on JSON object fields (first occurrence wins,
as JavaScript property access does on de-duplicated objects). -/
def lookupField (k : String) : List (String × Json) → Option Json
  | [] => none
  | (k', v) :: rest => if k' == k then some v else lookupField k rest

/-- `o[k] = v` on a JavaScript object: overwrite in place if the key exists
(keeping its position), otherwise append. -/
def setField (k : String) (v : Json) : List (String × Json) → List (String × Json)
  | [] => [(k, v)]
  | (k', v') :: rest => if k' == k then (k, v) :: rest else (k', v') :: setField k v rest

/-- Generic association-list lookup (first occurrence). -/
def lookupA {α : Type} (k : String) : List (String × α) → Option α
  | [] => none
  | (k', v) :: rest => if k' == k then some v else lookupA k rest

/-- Generic in-place set-or-append, mirroring JavaScript property assignment. -/
def setFieldA {α : Type} (k : String) (v : α) : List (String × α) → List (String × α)
  | [] => [(k, v)]
  | (k', v') :: rest => if k' == k then (k, v) :: rest else (k', v') :: setFieldA k v rest

/-- `key in object` on an association map. -/
def hasKeyA {α : Type} (k : String) (m : List (String × α)) : Bool :=
  m.any (fun kv => kv.1 == k)

/-- JSON string-literal escaping used by `JSON.stringify`. -/
def escapeChar (c : Char) : String :=
  if c = '"' then "\\\""
  else if c = '\\' then "\\\\"
  else if c = '\n' then "\\n"
  else if c = '\t' then "\\t"
  else if c = '\r' then "\\r"
  else String.singleton c

/-- Quote a string the way `JSON.stringify` does. -/
def quoteStr (s : String) : String :=
  "\"" ++ String.join (s.data.map escapeChar) ++ "\""

mutual

/-- `JSON.stringify(v)` (no indentation argument). -/
def stringify : Json → String
  | .null => "null"
  | .bool true => "true"
  | .bool false => "false"
  | .num n => toString n
  | .str s => quoteStr s
  | .arr xs => "[" ++ stringifyList xs ++ "]"
  | .obj fs => "\x7b" ++ stringifyFields fs ++ "\x7d"

/-- Comma-separated stringification of array elements. -/
def stringifyList : List Json → String
  | [] => ""
  | [x] => stringify x
  | x :: rest => stringify x ++ "," ++ stringifyList rest

/-- Comma-separated stringification of object fields. -/
def stringifyFields : List (String × Json) → String
  | [] => ""
  | [(k, v)] => quoteStr k ++ ":" ++ stringify v
  | (k, v) :: rest => quoteStr k ++ ":" ++ stringify v ++ "," ++ stringifyFields rest

end

/-- JavaScript `String.prototype.toLowerCase` (ASCII-adequate model). -/
def jsToLower (s : String) : String := ⟨s.data.map Char.toLower⟩

/-- JavaScript `a.startsWith(b)`. -/
def jsStartsWith (s pre : String) : Bool := pre.data.isPrefixOf s.data

/-- JavaScript `a.endsWith(b)`. -/
def jsEndsWith (s suf : String) : Bool := suf.data.isSuffixOf s.data

/-- Is `pat` a contiguous sublist of `l`? (executable infix test). -/
def isSublist (pat : List Char) : List Char → Bool
  | [] => pat.isEmpty
  | c :: rest => pat.isPrefixOf (c :: rest) || isSublist pat rest

/-- JavaScript `a.includes(b)`. -/
def jsIncludes (s sub : String) : Bool := isSublist sub.data s.data

/-- `String.prototype.replace` with a string pattern replaces only the FIRST
occurrence; with an empty replacement this deletes the first occurrence.
List-level worker. -/
def replaceFirstL (pat : List Char) : List Char → List Char
  | [] => []
  | c :: rest =>
    if pat.isPrefixOf (c :: rest) then (c :: rest).drop pat.length
    else c :: replaceFirstL pat rest

/-- JavaScript `s.replace(pat, '')` (first occurrence only). -/
def replaceFirst (pat s : String) : String := ⟨replaceFirstL pat.data s.data⟩

/-- JSON whitespace. -/
def isWs (c : Char) : Bool := c = ' ' || c = '\n' || c = '\t' || c = '\r'

/-- Drop leading JSON whitespace. -/
def skipWs : List Char → List Char
  | [] => []
  | c :: rest => if isWs c then skipWs rest else c :: rest

/-- The `[` `]`-analogous brace characters, by code point. -/
def lbrace : Char := Char.ofNat 123

/-- Closing brace character. -/
def rbrace : Char := Char.ofNat 125

/-- The keyword character lists of the JSON grammar. -/
def nullChars : List Char := ['n', 'u', 'l', 'l']

/-- `true` keyword. -/
def trueChars : List Char := ['t', 'r', 'u', 'e']

/-- `false` keyword. -/
def falseChars : List Char := ['f', 'a', 'l', 's', 'e']

/-- Parse the remainder of a JSON string literal (after the opening quote):
returns the decoded contents and the input after the closing quote. -/
def parseStringRest : List Char → Option (String × List Char)
  | [] => none
  | c :: rest =>
    if c = '"' then some ("", rest)
    else if c = '\\' then
      match rest with
      | [] => none
      | e :: rest' =>
        let dec : Option Char :=
          if e = '"' then some '"'
          else if e = '\\' then some '\\'
          else if e = '/' then some '/'
          else if e = 'n' then some '\n'
          else if e = 't' then some '\t'
          else if e = 'r' then some '\r'
          else none
        match dec with
        | some d =>
          match parseStringRest rest' with
          | some (s, r) => some (⟨d :: s.data⟩, r)
          | none => none
        | none => none
    else
      match parseStringRest rest with
      | some (s, r) => some (⟨c :: s.data⟩, r)
      | none => none

/-- Split a leading run of decimal digits. -/
def takeDigits : List Char → List Char × List Char
  | [] => ([], [])
  | c :: rest =>
    if c.isDigit then
      let (ds, r) := takeDigits rest
      (c :: ds, r)
    else ([], c :: rest)

/-- Decimal digits to a natural number. -/
def digitsToNat (ds : List Char) : Nat :=
  ds.foldl (fun a c => a * 10 + (c.toNat - 48)) 0

/-- Parse a JSON integer literal (numeric literals are modelled as integers). -/
def parseNumber : List Char → Option (Json × List Char)
  | l =>
    match l with
    | '-' :: rest =>
      match takeDigits rest with
      | ([], _) => none
      | (ds, r) => some (.num (-(digitsToNat ds : Int)), r)
    | _ =>
      match takeDigits l with
      | ([], _) => none
      | (ds, r) => some (.num (digitsToNat ds), r)

mutual

/-- Fuel-indexed JSON value parser (model of `JSON.parse`'s grammar). -/
def parseValue : Nat → List Char → Option (Json × List Char)
  | 0, _ => none
  | fuel + 1, l =>
    match skipWs l with
    | [] => none
    | c :: rest =>
      if c = '"' then
        match parseStringRest rest with
        | some (s, r) => some (.str s, r)
        | none => none
      else if c = lbrace then parseObjStart fuel rest
      else if c = '[' then parseArrStart fuel rest
      else if c = '-' || c.isDigit then parseNumber (c :: rest)
      else if nullChars.isPrefixOf (c :: rest) then some (.null, (c :: rest).drop 4)
      else if trueChars.isPrefixOf (c :: rest) then some (.bool true, (c :: rest).drop 4)
      else if falseChars.isPrefixOf (c :: rest) then some (.bool false, (c :: rest).drop 5)
      else none

/-- Array body parser, starting right after `[`. -/
def parseArrStart : Nat → List Char → Option (Json × List Char)
  | 0, _ => none
  | fuel + 1, l =>
    match skipWs l with
    | ']' :: rest => some (.arr [], rest)
    | l' => parseArrElems fuel l' []

/-- One-or-more comma-separated array elements, then `]`. -/
def parseArrElems : Nat → List Char → List Json → Option (Json × List Char)
  | 0, _, _ => none
  | fuel + 1, l, acc =>
    match parseValue fuel l with
    | none => none
    | some (v, r) =>
      match skipWs r with
      | ',' :: r' => parseArrElems fuel r' (acc ++ [v])
      | ']' :: r' => some (.arr (acc ++ [v]), r')
      | _ => none

/-- Object body parser, starting right after the opening brace. -/
def parseObjStart : Nat → List Char → Option (Json × List Char)
  | 0, _ => none
  | fuel + 1, l =>
    match skipWs l with
    | c :: rest =>
      if c = rbrace then some (.obj [], rest)
      else parseObjElems fuel (c :: rest) []
    | [] => none

/-- One-or-more `"key": value` object members, then the closing brace.
A duplicated key keeps the last value, as `JSON.parse` does. -/
def parseObjElems : Nat → List Char → List (String × Json) → Option (Json × List Char)
  | 0, _, _ => none
  | fuel + 1, l, acc =>
    match skipWs l with
    | '"' :: rest =>
      match parseStringRest rest with
      | some (k, r) =>
        (match skipWs r with
         | ':' :: r' =>
           (match parseValue fuel r' with
            | some (v, r2) =>
              (match skipWs r2 with
               | ',' :: r3 => parseObjElems fuel r3 (setField k v acc)
               | c :: r3 =>
                 if c = rbrace then some (.obj (setField k v acc), r3) else none
               | [] => none)
            | none => none)
         | _ => none)
      | none => none
    | _ => none

end

/-- `JSON.parse`: parse a complete JSON document (trailing whitespace only). -/
def jsonParse (s : String) : Option Json :=
  match parseValue (2 * s.data.length + 4) s.data with
  | some (v, rest) => if (skipWs rest).isEmpty then some v else none
  | none => none

/-- A dropdown option `{label, value}`. -/
structure DropdownOption where
  label : String
  value : Json
deriving Repr

/-- JavaScript strict equality `===` restricted to JSON-shaped values:
value equality on primitives, reference inequality on arrays/objects
(two separately materialised composites are never `===`). -/
def jsStrictEq : Json → Json → Bool
  | .null, .null => true
  | .bool a, .bool b => a == b
  | .num a, .num b => a == b
  | .str a, .str b => a == b
  | _, _ => false

/-- `Object.keys`-style entries of an array: JavaScript indexes arrays with
the strings "0", "1", …. -/
def indexEntries (xs : List Json) : List (String × Json) :=
  xs.enum.map (fun p => (toString p.1, p.2))

/-- `typeof v === 'object' && v !== null` together with JavaScript's view of
the value's own enumerable keys: objects keep their fields, arrays expose
index keys, everything else (including null) is not a keyed structure. -/
def jsKeyedEntries : Json → Option (List (String × Json))
  | .obj fs => some fs
  | .arr xs => some (indexEntries xs)
  | _ => none

/-- Does the extracted object share at least one key with the option object,
with `===`-equal values? (`Object.keys(extractedObj).find(...)`). -/
def hasSharedKey (efs ofs : List (String × Json)) : Bool :=
  efs.any fun kv =>
    match lookupField kv.1 ofs with
    | some w => jsStrictEq kv.2 w
    | none => false

/-- Ladder rule 4's per-option test: the option value is a keyed structure
(object or array, per `typeof === 'object'`) sharing at least one
`===`-equal key with the extracted value's entries. -/
def sharesKeyWith (efs : List (String × Json)) (o : DropdownOption) : Bool :=
  match jsKeyedEntries o.value with
  | some ofs => hasSharedKey efs ofs
  | none => false

/-- The string form used by the reconciler: the string itself for strings,
`JSON.stringify` otherwise. -/
def extractedStrOf (v : Json) : String :=
  match v with
  | .str s => s
  | v => stringify v

/-- Value Reconciler (`matchDropdownValue` in the source): repairs a model
extracted value against an authoritative option list via a fixed ladder. -/
def matchDropdownValue (extractedValue : Json) (options : List DropdownOption) : Json :=
  match options with
  | [] => extractedValue
  | o0 :: _ =>
    match options.find? (fun o => stringify o.value == stringify extractedValue) with
    | some o => o.value
    | none =>
      let extractedStr := extractedStrOf extractedValue
      match options.find? (fun o => jsToLower o.label == jsToLower extractedStr) with
      | some o => o.value
      | none =>
        match options.find? (fun o => jsIncludes (jsToLower extractedStr) (jsToLower o.label)) with
        | some o => o.value
        | none =>
          match jsKeyedEntries extractedValue with
          | some efs =>
            (match options.find? (sharesKeyWith efs) with
             | some o => o.value
             | none => o0.value)
          | none => o0.value

/-- The reconciliation ladder written from the specification's wording:
first match wins among (1) structural equality of contents, (2)
case-insensitive label equality, (3) case-insensitive label containment in
the extracted value's string form, (4) first option sharing a key with an
equal value when both sides are keyed structures, (5) the first option. -/
def reconcileSpec (extractedValue : Json) (options : List DropdownOption) : Json :=
  match options with
  | [] => extractedValue
  | o0 :: _ =>
    let rule1 := options.find? fun o => stringify o.value == stringify extractedValue
    let s := extractedStrOf extractedValue
    let rule2 := options.find? fun o => jsToLower o.label == jsToLower s
    let rule3 := options.find? fun o => jsIncludes (jsToLower s) (jsToLower o.label)
    let rule4 :=
      match jsKeyedEntries extractedValue with
      | some efs => options.find? (sharesKeyWith efs)
      | none => none
    match rule1 with
    | some o => o.value
    | none =>
      match rule2 with
      | some o => o.value
      | none =>
        match rule3 with
        | some o => o.value
        | none =>
          match rule4 with
          | some o => o.value
          | none => o0.value

/-- The property type taxonomy of the pieces framework. -/
inductive PropertyType where
  | SHORT_TEXT | LONG_TEXT | MARKDOWN | DATE_TIME | FILE | COLOR
  | DROPDOWN | STATIC_DROPDOWN | MULTI_SELECT_DROPDOWN | STATIC_MULTI_SELECT_DROPDOWN
  | NUMBER | ARRAY | OBJECT | JSON | DYNAMIC | CHECKBOX | CUSTOM
  | OAUTH2 | BASIC_AUTH | CUSTOM_AUTH | SECRET_TEXT
deriving DecidableEq, Repr

/-- The enum member's name, used in error messages. -/
def PropertyType.label : PropertyType → String
  | .SHORT_TEXT => "SHORT_TEXT"
  | .LONG_TEXT => "LONG_TEXT"
  | .MARKDOWN => "MARKDOWN"
  | .DATE_TIME => "DATE_TIME"
  | .FILE => "FILE"
  | .COLOR => "COLOR"
  | .DROPDOWN => "DROPDOWN"
  | .STATIC_DROPDOWN => "STATIC_DROPDOWN"
  | .MULTI_SELECT_DROPDOWN => "MULTI_SELECT_DROPDOWN"
  | .STATIC_MULTI_SELECT_DROPDOWN => "STATIC_MULTI_SELECT_DROPDOWN"
  | .NUMBER => "NUMBER"
  | .ARRAY => "ARRAY"
  | .OBJECT => "OBJECT"
  | .JSON => "JSON"
  | .DYNAMIC => "DYNAMIC"
  | .CHECKBOX => "CHECKBOX"
  | .CUSTOM => "CUSTOM"
  | .OAUTH2 => "OAUTH2"
  | .BASIC_AUTH => "BASIC_AUTH"
  | .CUSTOM_AUTH => "CUSTOM_AUTH"
  | .SECRET_TEXT => "SECRET_TEXT"

/-- A piece property declaration: type tag, required flag, optional
description and default, and (for static dropdowns) the inline option list
(`property.options.options` in the source). -/
structure PieceProperty where
  type : PropertyType
  required : Bool
  description : Option String := none
  defaultValue : Option Json := none
  staticOptions : Option (List DropdownOption) := none
deriving Repr

/-- Validation schemas as assembled from the `zod` combinators the source uses. -/
inductive Schema where
  | sString
  | sNumber
  | sBoolean
  | sArrayString
  | sArrayUnknown
  | sEnum (labels : List String)
  | sUnionStrNumObj
  | sUnionArrays
  | sLooseObject (shape : List (String × Schema))
  | sStrictObject (shape : List (String × Schema))
  | sNullable (inner : Schema)
  | sDescribe (descr : String) (inner : Schema)
deriving Repr

/-- Is the value a JSON string? -/
def isStr : Json → Bool
  | .str _ => true
  | _ => false

/-- Is the value a JSON object? -/
def isObj : Json → Bool
  | .obj _ => true
  | _ => false

mutual

/-- `zod` validation semantics for the schemas of this development:
`nullable` admits `null`, object schemas require every declared field to be
present, a strict object additionally rejects unknown keys, a loose object
admits them. -/
def accepts : Schema → Json → Bool
  | .sString, v => isStr v
  | .sNumber, v => match v with | .num _ => true | _ => false
  | .sBoolean, v => match v with | .bool _ => true | _ => false
  | .sArrayString, v => match v with | .arr xs => xs.all isStr | _ => false
  | .sArrayUnknown, v => match v with | .arr _ => true | _ => false
  | .sEnum ls, v => match v with | .str s => ls.contains s | _ => false
  | .sUnionStrNumObj, v => match v with | .str _ => true | .num _ => true | .obj _ => true | _ => false
  | .sUnionArrays, v => match v with | .arr xs => xs.all isStr || xs.all isObj | _ => false
  | .sLooseObject shape, v => match v with | .obj fs => acceptsShape shape fs | _ => false
  | .sStrictObject shape, v =>
    match v with
    | .obj fs => acceptsShape shape fs && fs.all (fun kv => shape.any (fun p => p.1 == kv.1))
    | _ => false
  | .sNullable s, v => match v with | .null => true | w => accepts s w
  | .sDescribe _ s, v => accepts s v

/-- Every declared field must be present and conforming. -/
def acceptsShape : List (String × Schema) → List (String × Json) → Bool
  | [], _ => true
  | (k, s) :: rest, fs =>
    (match lookupField k fs with
     | some v => accepts s v
     | none => false)
    && acceptsShape rest fs

end

/-- Errors raised inside the engine (JavaScript exceptions in the source). -/
inductive EngineError where
  | externalError (msg : String)
  | unsupportedPropertyType (t : PropertyType)
  | noObjectGenerated (causeIsJsonParse : Bool) (text : String)
  | jsonParseThrow (text : String)
  | propertyNotFound (name : String)
  | fuelExhausted
deriving Repr

/-- The `error.message` carried by the exception. -/
def EngineError.message : EngineError → String
  | .externalError m => m
  | .unsupportedPropertyType t => "Unsupported property type: " ++ t.label
  | .noObjectGenerated _ _ => "No object generated: response did not match schema."
  | .jsonParseThrow _ => "Unexpected token in JSON"
  | .propertyNotFound n => "Cannot read properties of undefined (reading type): " ++ n
  | .fuelExhausted => "recursion limit reached"

/-- A response of the `executeProps` collaborator: dropdown options, a map
of runtime-discovered sub-property declarations (possibly malformed entries),
or a disabled placeholder. -/
inductive DynEntry where
  | malformed (raw : Json)
  | prop (p : PieceProperty)
deriving Repr

/-- Shape of `pieceHelper.executeProps`'s `options` payload. -/
inductive PropsResponse where
  | options (opts : List DropdownOption)
  | dynamicFields (fields : List (String × DynEntry))
  | disabledResp
deriving Repr

/-- External collaborators of the resolution pipeline: the language model
(raw response text per call index) and the option/dynamic-property loader. -/
structure Env where
  modelText : Nat → String
  executeProps : String → List (String × JsValue) → Except String PropsResponse

/-- `loadOptions` in the source: query the collaborator and read
`response.options.options`; any thrown error propagates. -/
def loadOptions (env : Env) (propertyName : String)
    (input : List (String × JsValue)) : Except EngineError (List DropdownOption) :=
  match env.executeProps propertyName input with
  | .error m => .error (.externalError m)
  | .ok (.options opts) => .ok opts
  | .ok _ => .error (.externalError "malformed executeProps response")

/-- `loadDropdownLabels`: static dropdowns read their inline options,
other choice types query the collaborator; any error yields `[]` (the
source catches and returns the empty list); keep non-empty string labels. -/
def loadDropdownLabels (env : Env) (propertyName : String) (property : PieceProperty)
    (input : List (String × JsValue)) : List String :=
  let optsE : Except EngineError (List DropdownOption) :=
    if property.type = .STATIC_DROPDOWN ∨ property.type = .STATIC_MULTI_SELECT_DROPDOWN then
      .ok (property.staticOptions.getD [])
    else loadOptions env propertyName input
  match optsE with
  | .ok opts => (opts.map DropdownOption.label).filter (fun l => !l.isEmpty)
  | .error _ => []

/-- Schema for one field of a recognised `{type:"object", properties, required}`
default-value descriptor (the switch in `tryBuildSchemaFromDefault`).
Non-string description values are not modelled. -/
def buildFieldSchema (fieldDef : Json) (isRequired : Bool) : Schema :=
  let tag : Option String :=
    match fieldDef with
    | .obj fs =>
      (match lookupField "type" fs with
       | some (.str s) => some s
       | _ => none)
    | _ => none
  let base : Schema :=
    if tag = some "number" ∨ tag = some "integer" then .sNumber
    else if tag = some "boolean" then .sBoolean
    else if tag = some "array" then .sArrayUnknown
    else .sString
  let withDescr : Schema :=
    match fieldDef with
    | .obj fs =>
      (match lookupField "description" fs with
       | some (.str d) => if d.isEmpty then base else .sDescribe d base
       | _ => base)
    | _ => base
  if isRequired then withDescr else .sNullable withDescr

/-- `tryBuildSchemaFromDefault`: recognise a `{type:"object", properties,
required:[...]}` descriptor in a default value and derive a field-accurate
loose object schema from it; `none` when the shape is not recognised. The
source's `typeof schema.properties === 'object'` check also admits an
ARRAY-valued `properties`, whose `Object.entries` are index-keyed — hence
`jsKeyedEntries`. -/
def tryBuildSchemaFromDefault (defaultValue : Json) : Option Schema :=
  match defaultValue with
  | .obj fs =>
    (match lookupField "type" fs with
     | some (.str "object") =>
       (match lookupField "properties" fs with
        | some props =>
          (match jsKeyedEntries props with
           | some propEntries =>
             let requiredFields : List String :=
               match lookupField "required" fs with
               | some (.arr xs) => xs.filterMap (fun x => match x with | .str s => some s | _ => none)
               | _ => []
             some (.sLooseObject
               (propEntries.map (fun kv => (kv.1, buildFieldSchema kv.2 (requiredFields.contains kv.1)))))
           | none => none)
        | none => none)
     | _ => none)
  | _ => none

/-- The default-value adjustment `buildDynamicSchema` applies to each
object/JSON sub-property: a recognised descriptor replaces the base schema
outright; any other non-null default is attached as a structural hint in the
description. -/
def dynamicSubAdjust (base : Schema) (value : PieceProperty) : Schema :=
  match value.defaultValue with
  | none => base
  | some d =>
    match d with
    | .null => base
    | d =>
      if value.type = .OBJECT ∨ value.type = .JSON then
        match tryBuildSchemaFromDefault d with
        | some s => s
        | none =>
          let hint := match d with | .str s => s | other => stringify other
          .sDescribe ("Expected structure: " ++ hint) base
      else base

/-- The non-recursive dispatch of `propertyToSchema`: the `DYNAMIC` case is
delegated to the supplied `dynRec` continuation (the fuel-indexed dynamic
synthesis below), everything else as in the source switch, followed by the
description/nullable post-processing — except the `ARRAY` early return. -/
def propertyToSchemaGen (dynRec : String → List (String × JsValue) → Except EngineError Schema)
    (env : Env) (propertyName : String) (property : PieceProperty)
    (resolvedInput : List (String × JsValue)) : Except EngineError Schema := do
  let base : Schema ←
    match property.type with
    | .SHORT_TEXT | .LONG_TEXT | .MARKDOWN | .DATE_TIME | .FILE | .COLOR => pure .sString
    | .DROPDOWN | .STATIC_DROPDOWN =>
      let optionsForSchema := loadDropdownLabels env propertyName property resolvedInput
      if optionsForSchema.isEmpty then pure .sUnionStrNumObj
      else pure (.sEnum optionsForSchema)
    | .MULTI_SELECT_DROPDOWN | .STATIC_MULTI_SELECT_DROPDOWN => pure .sUnionArrays
    | .NUMBER => pure .sNumber
    | .ARRAY => return .sArrayString
    | .OBJECT => pure (.sLooseObject [])
    | .JSON => pure (.sLooseObject [])
    | .DYNAMIC => dynRec propertyName resolvedInput
    | .CHECKBOX => pure .sBoolean
    | .CUSTOM => pure .sString
    | .OAUTH2 | .BASIC_AUTH | .CUSTOM_AUTH | .SECRET_TEXT =>
      throw (.unsupportedPropertyType property.type)
  let withDescr : Schema :=
    match property.description with
    | some d => .sDescribe d base
    | none => base
  return if property.required then withDescr else .sNullable withDescr

/-- The per-entry loop of `buildDynamicSchema`, parametrized by the
sub-property synthesis `subRec`: malformed entries are skipped; each declared
sub-property gets its schema plus the default-value adjustment. -/
def dynamicShapeGen (subRec : String → PieceProperty → List (String × JsValue) → Except EngineError Schema)
    (entries : List (String × DynEntry)) (resolvedInput : List (String × JsValue)) :
    Except EngineError (List (String × Schema)) :=
  match entries with
  | [] => pure []
  | (_, .malformed _) :: rest => dynamicShapeGen subRec rest resolvedInput
  | (key, .prop value) :: rest => do
    let s0 ← subRec key value resolvedInput
    let s := dynamicSubAdjust s0 value
    let restShape ← dynamicShapeGen subRec rest resolvedInput
    return (key, s) :: restShape

/-- `buildDynamicSchema` parametrized the same way: discover sub-property
declarations from the collaborator and synthesize a loose object schema over
them; a disabled or non-map payload — or a field map that itself contains a
key named "disabled" (the source's `'disabled' in dynamicProperties` test) —
yields the open object schema. -/
def buildDynamicSchemaGen
    (subRec : String → PieceProperty → List (String × JsValue) → Except EngineError Schema)
    (env : Env) (propertyName : String) (resolvedInput : List (String × JsValue)) :
    Except EngineError Schema := do
  match env.executeProps propertyName resolvedInput with
  | .error m => throw (.externalError m)
  | .ok .disabledResp => return .sLooseObject []
  | .ok (.options _) => return .sLooseObject []
  | .ok (.dynamicFields fields) =>
    if hasKeyA "disabled" fields then return .sLooseObject []
    else do
      let shape ← dynamicShapeGen subRec fields resolvedInput
      return .sLooseObject shape

/-- The fuel-indexed dynamic-schema synthesis: each level of `DYNAMIC`
nesting consumes one unit of fuel (the source recursion is unbounded only
through pathological collaborator responses). -/
def dynSchemaFuel (env : Env) : Nat → String → List (String × JsValue) → Except EngineError Schema
  | 0, _, _ => throw .fuelExhausted
  | n + 1, propertyName, resolvedInput =>
    buildDynamicSchemaGen
      (fun key value inp => propertyToSchemaGen (dynSchemaFuel env n) env key value inp)
      env propertyName resolvedInput

/-- `propertyToSchema`: dispatch on the property's type tag, then attach the
description if any and wrap optional properties in `nullable` — except that
the `ARRAY` case returns early in the source and skips that post-processing,
and auth-only types throw `Unsupported property type`. -/
def propertyToSchema (env : Env) (fuel : Nat) (propertyName : String)
    (property : PieceProperty) (resolvedInput : List (String × JsValue)) :
    Except EngineError Schema :=
  propertyToSchemaGen (dynSchemaFuel env fuel) env propertyName property resolvedInput

/-- `buildDynamicSchema` with the same fuel discipline for its sub-properties. -/
def buildDynamicSchema (env : Env) (fuel : Nat) (propertyName : String)
    (resolvedInput : List (String × JsValue)) : Except EngineError Schema :=
  buildDynamicSchemaGen
    (fun key value inp => propertyToSchemaGen (dynSchemaFuel env fuel) env key value inp)
    env propertyName resolvedInput

/-- JavaScript truthiness of a JSON value. -/
def truthy : Json → Bool
  | .null => false
  | .bool b => b
  | .num n => n != 0
  | .str s => !s.isEmpty
  | .arr _ => true
  | .obj _ => true

/-- The opening fence checked by the recovery heuristic. -/
def fencedJson : String := "```json"

/-- The plain closing fence. -/
def fence : String := "```"

/-- The `.catch` handler around the model invocation (source lines 126–133):
a generation failure whose cause is a JSON parse error and whose raw text is
fenced as ```` ```json … ``` ```` is recovered by stripping the first
occurrence of each fence and `JSON.parse`-ing the remainder (a parse failure
there throws, i.e. propagates as a different error); every other error is
rethrown. -/
def generateCatch (e : EngineError) : Except EngineError Json :=
  match e with
  | .noObjectGenerated causeIsJsonParse text =>
    if causeIsJsonParse && jsStartsWith text fencedJson && jsEndsWith text fence then
      match jsonParse (replaceFirst fence (replaceFirst fencedJson text)) with
      | some v => .ok v
      | none => .error (.jsonParseThrow text)
    else .error (.noObjectGenerated causeIsJsonParse text)
  | e => .error e

/-- `generateText` with `Output.object`: the raw model text must parse as
JSON (else a generation failure with a JSON-parse cause) and validate
against the strict level schema (else a generation failure with a
validation cause); failures then go through `generateCatch`. -/
def generateObject (text : String) (schema : Schema) : Except EngineError Json :=
  let raw : Except EngineError Json :=
    match jsonParse text with
    | some v => if accepts schema v then .ok v else .error (.noObjectGenerated false text)
    | none => .error (.noObjectGenerated true text)
  match raw with
  | .ok v => .ok v
  | .error e => generateCatch e

/-- Per-property prompt metadata (`PropertyDetail` in the source). -/
structure PropertyDetail where
  name : String
  type : PropertyType
  description : Option String
  options : Option (List DropdownOption)
  defaultValue : Option Json
deriving Repr

/-- `buildPropertyDetail`: static choice types carry their inline options,
live choice types load them from the collaborator (errors propagate),
everything else carries no option list. -/
def buildPropertyDetail (env : Env) (propertyName : String) (property : PieceProperty)
    (input : List (String × JsValue)) : Except EngineError PropertyDetail :=
  let baseDetail : PropertyDetail :=
    ⟨propertyName, property.type, property.description, none, property.defaultValue⟩
  if property.type = .STATIC_DROPDOWN ∨ property.type = .STATIC_MULTI_SELECT_DROPDOWN then
    .ok { baseDetail with options := some (property.staticOptions.getD []) }
  else if property.type = .DROPDOWN ∨ property.type = .MULTI_SELECT_DROPDOWN then
    match loadOptions env propertyName input with
    | .ok opts => .ok { baseDetail with options := some opts }
    | .error e => .error e
  else .ok baseDetail

/-- The per-level exclusion set of the orchestrator (`skipTypes`). -/
def skipTypes : List PropertyType :=
  [.BASIC_AUTH, .OAUTH2, .CUSTOM_AUTH, .CUSTOM, .MARKDOWN]

/-- Predefined-field control modes; `OTHER` stands for the remaining enum
members the loop ignores. -/
inductive FieldControlMode where
  | CHOOSE_YOURSELF
  | LEAVE_EMPTY
  | OTHER
deriving DecidableEq, Repr

/-- One predefined input field. -/
structure PredefinedField where
  mode : FieldControlMode
  value : JsValue
deriving Repr

/-- The slice of `ExecuteToolOperation` the resolution pipeline reads. -/
structure Operation where
  actionName : String
  auth : Option Json := none
  fields : List (String × PredefinedField) := []

/-- The inner per-level loop that gathers the schemas and details of the
properties still to fill, skipping excluded types and properties already
present in the accumulator. -/
def collectLevel (env : Env) (action : List (String × PieceProperty)) (fuel : Nat)
    (result : List (String × JsValue)) :
    List String → Except EngineError (List (String × Schema) × List PropertyDetail)
  | [] => .ok ([], [])
  | property :: rest =>
    match lookupA property action with
    | none => .error (.propertyNotFound property)
    | some propertyFromAction =>
      if skipTypes.contains propertyFromAction.type || hasKeyA property result then
        collectLevel env action fuel result rest
      else do
        let propertySchema ← propertyToSchema env fuel property propertyFromAction result
        let propertyDetail ← buildPropertyDetail env property propertyFromAction result
        let (fills, details) ← collectLevel env action fuel result rest
        return ((property, propertySchema) :: fills, propertyDetail :: details)

/-- The reconciliation loop over the extracted object (source lines 136–140):
for each detail with a non-empty authoritative option list whose name is a
key of the extracted object, replace that key's value by the reconciled one.
Using the `in` operator on a non-object extracted value throws. -/
def applyReconciliation : List PropertyDetail → Json → Except EngineError Json
  | [], output => .ok output
  | detail :: rest, output =>
    match detail.options with
    | none => applyReconciliation rest output
    | some opts =>
      if opts.isEmpty then applyReconciliation rest output
      else
        match output with
        | .obj fs =>
          (match lookupField detail.name fs with
           | some v =>
             applyReconciliation rest (.obj (setField detail.name (matchDropdownValue v opts) fs))
           | none => applyReconciliation rest output)
        | _ => .error (.externalError "Cannot use in operator to search for a key in a primitive")

/-- `{...result, ...extracted}`: merge the extracted object into the
accumulator, right side winning; spreading a non-object adds nothing. -/
def mergeSpread (result : List (String × JsValue)) (extracted : Json) :
    List (String × JsValue) :=
  match extracted with
  | .obj fs => fs.foldl (fun acc kv => setFieldA kv.1 (some kv.2) acc) result
  | _ => result

/-- The accumulator seeded with the (truthy) auth value and the predefined
fields, before any level is processed. -/
def seedResult (op : Operation) : List (String × JsValue) :=
  let withAuth : List (String × JsValue) :=
    match op.auth with
    | some a => if truthy a then [("auth", some a)] else []
    | none => []
  op.fields.foldl
    (fun acc kv =>
      match kv.2.mode with
      | .CHOOSE_YOURSELF => setFieldA kv.1 kv.2.value acc
      | .LEAVE_EMPTY => setFieldA kv.1 none acc
      | .OTHER => acc)
    withAuth

/-- One iteration of the level loop: collect fillable properties, skip the
model entirely if there are none, otherwise invoke the model once over the
strict combined schema, reconcile choice values, and merge. The second
state component records the key set of every model call issued. -/
def processLevel (env : Env) (action : List (String × PieceProperty)) (fuel : Nat)
    (state : List (String × JsValue) × List (List String)) (properties : List String) :
    Except EngineError (List (String × JsValue) × List (List String)) := do
  let (result, calls) := state
  let (propertyToFill, propertyDetails) ← collectLevel env action fuel result properties
  if propertyToFill.isEmpty then return (result, calls)
  else do
    let text := env.modelText calls.length
    let output ← generateObject text (.sStrictObject propertyToFill)
    let extracted ← applyReconciliation propertyDetails output
    return (mergeSpread result extracted, calls ++ [propertyToFill.map Prod.fst])

/-- `resolveProperties`: seed the accumulator, then fold the level loop in
ascending depth order. Also returns the key sets of the model calls issued. -/
def resolveProperties (env : Env) (levels : List (List String))
    (action : List (String × PieceProperty)) (op : Operation) (fuel : Nat) :
    Except EngineError (List (String × JsValue) × List (List String)) :=
  levels.foldlM (processLevel env action fuel) (seedResult op, [])

/-- Runtime per-step status reported by the flow executor. -/
inductive StepOutputStatus where
  | FAILED | SUCCEEDED | PAUSED | STOPPED
deriving DecidableEq, Repr

/-- The executor's own result status. -/
inductive ExecutionToolStatus where
  | FAILED | SUCCESS
deriving DecidableEq, Repr

/-- Status/output/error of the executed step as read back from the runtime. -/
structure StepResult where
  output : JsValue
  errorMessage : Option String
  status : StepOutputStatus

/-- The runtime's response: a map from step name to its result. -/
structure RuntimeOutput where
  steps : List (String × StepResult)

/-- Collaborators of `execute`: action lookup, the dependency sorter, the
resolution environment, and the action runtime. -/
structure ExecEnv where
  lookupAction : Except String (List (String × PieceProperty))
  tsortLevels : List (String × PieceProperty) → Except String (List (List String))
  resolveEnv : Env
  fuel : Nat
  runtime : List (String × JsValue) → Except String RuntimeOutput

/-- `ExecuteToolResponse`. -/
structure ExecuteToolResponse where
  status : ExecutionToolStatus
  output : JsValue
  resolvedInput : List (String × JsValue)
  errorMessage : Option String

/-- The body of `execute`'s `try` block: look up the action, sort its
properties, resolve the input, run the step, read back its result, map the
status, and redact `auth` in the returned (not the runtime-consumed) input. -/
def executeBody (env : ExecEnv) (op : Operation) : Except EngineError ExecuteToolResponse := do
  let pieceActionProps ←
    match env.lookupAction with
    | .ok a => pure a
    | .error m => throw (.externalError m)
  let depthToPropertyMap ←
    match env.tsortLevels pieceActionProps with
    | .ok l => pure l
    | .error m => throw (.externalError m)
  let resolved ← resolveProperties env.resolveEnv depthToPropertyMap pieceActionProps op env.fuel
  let resolvedInput := resolved.1
  let runtimeOut ←
    match env.runtime resolvedInput with
    | .ok r => pure r
    | .error m => throw (.externalError m)
  match lookupA op.actionName runtimeOut.steps with
  | none => throw (.externalError "Cannot destructure property of undefined")
  | some stepRes =>
    return { status := if stepRes.status = .FAILED then .FAILED else .SUCCESS
             output := stepRes.output
             resolvedInput := setFieldA "auth" (some (.str "Redacted")) resolvedInput
             errorMessage := stepRes.errorMessage }

/-- `execute`: the whole chain inside a `try`/`catch` that converts any
exception into a failure result carrying the error's message. -/
def execute (env : ExecEnv) (op : Operation) : ExecuteToolResponse :=
  match executeBody env op with
  | .ok r => r
  | .error e =>
    { status := .FAILED
      output := none
      resolvedInput := []
      errorMessage := some ("Tool execution error: " ++ e.message) }

/-- Overall agent-run status. -/
inductive AgentTaskStatus where
  | IN_PROGRESS | COMPLETED | FAILED
deriving DecidableEq, Repr

/-- Tool-call record status: in-progress, then completed (terminal). -/
inductive ToolCallStatus where
  | IN_PROGRESS | COMPLETED
deriving DecidableEq, Repr

/-- The three declared tool kinds. -/
inductive AgentToolType where
  | PIECE | FLOW | MCP
deriving DecidableEq, Repr

/-- The discriminator carried by a tool-call record. -/
inductive ToolCallType where
  | PIECE | FLOW | MCP
deriving DecidableEq, Repr

/-- Piece coordinates carried by a piece tool. -/
structure PieceMetadata where
  pieceName : String
  pieceVersion : String
  actionName : String
deriving DecidableEq, Repr

/-- A declared agent tool. -/
structure AgentTool where
  toolName : String
  type : AgentToolType
  pieceMetadata : Option PieceMetadata := none
  externalFlowId : Option String := none
  serverUrl : Option String := none
deriving Repr

/-- A tool-call content block (`ToolCallContentBlock`): base fields plus the
kind-specific descriptive fields. Timestamps are opaque clock readings. -/
structure ToolCallBlockData where
  toolName : String
  toolCallId : String
  status : ToolCallStatus
  input : List (String × JsValue)
  output : Option (List (String × JsValue))
  startTime : Nat
  endTime : Option Nat
  toolCallType : ToolCallType
  displayName : Option String := none
  pieceName : Option String := none
  pieceVersion : Option String := none
  actionName : Option String := none
  externalFlowId : Option String := none
  serverUrl : Option String := none
deriving Repr

/-- A transcript content block: markdown text or a tool-call record. -/
inductive AgentStepBlock where
  | markdown (text : String)
  | toolCall (tc : ToolCallBlockData)
deriving Repr

/-- The mutable state closed over by `agentOutputBuilder`. -/
structure TranscriptState where
  prompt : String
  status : AgentTaskStatus
  steps : List AgentStepBlock
  structuredOutput : Option (List (String × JsValue))
deriving Repr

/-- A fresh builder for a prompt. -/
def agentOutputBuilder (prompt : String) : TranscriptState :=
  { prompt := prompt
    status := .IN_PROGRESS
    steps := []
    structuredOutput := none }

/-- `addMarkdown`: coalesce into a trailing markdown block, else open one. -/
def addMarkdown (st : TranscriptState) (markdown : String) : TranscriptState :=
  match st.steps.getLast? with
  | some (.markdown t) =>
    { st with steps := st.steps.dropLast ++ [.markdown (t ++ markdown)] }
  | _ => { st with steps := st.steps ++ [.markdown markdown] }

/-- `s.slice(0, -n)`: drop the last `n` characters. -/
def dropLastChars (s : String) (n : Nat) : String :=
  ⟨s.data.take (s.data.length - n)⟩

/-- Two-tier tool matching: exact name first, then for MCP tools a suffix
match against `_<registeredName>`. -/
def findMatchingTool (toolName : String) (tools : List AgentTool) : Option AgentTool :=
  match tools.find? (fun t => t.toolName == toolName) with
  | some t => some t
  | none =>
    tools.find? (fun t =>
      decide (t.type = AgentToolType.MCP) && jsEndsWith toolName ("_" ++ t.toolName))

/-- `getToolMetadata`: resolve the tool and build the kind-specific
in-progress record; an unmatched name or missing kind metadata fails hard. -/
def getToolMetadata (toolName toolCallId : String) (input : List (String × JsValue))
    (startTime : Nat) (tools : List AgentTool) : Except String ToolCallBlockData :=
  match findMatchingTool toolName tools with
  | none => .error ("Tool " ++ toolName ++ " not found in agent tools")
  | some tool =>
    let base : ToolCallBlockData :=
      { toolName := toolName
        toolCallId := toolCallId
        status := .IN_PROGRESS
        input := input
        output := none
        startTime := startTime
        endTime := none
        toolCallType := .PIECE }
    match tool.type with
    | .PIECE =>
      (match tool.pieceMetadata with
       | none => .error "Piece metadata is required"
       | some md =>
         .ok { base with
               toolCallType := .PIECE
               pieceName := some md.pieceName
               pieceVersion := some md.pieceVersion
               actionName := some md.actionName })
    | .FLOW =>
      (match tool.externalFlowId with
       | none => .error "Flow ID is required"
       | some fid =>
         .ok { base with
               toolCallType := .FLOW
               displayName := some tool.toolName
               externalFlowId := some fid })
    | .MCP =>
      (match tool.serverUrl with
       | none => .error "Mcp server URL is required"
       | some url =>
         let displayName :=
           if jsEndsWith toolName ("_" ++ tool.toolName) then
             dropLastChars toolName (tool.toolName.length + 1)
           else toolName
         .ok { base with
               toolCallType := .MCP
               displayName := some displayName
               serverUrl := some url })

/-- `startToolCall`: append the resolved in-progress record as a new block. -/
def startToolCall (st : TranscriptState) (toolName toolCallId : String)
    (input : List (String × JsValue)) (agentTools : List AgentTool) (now : Nat) :
    Except String TranscriptState :=
  match getToolMetadata toolName toolCallId input now agentTools with
  | .error m => .error m
  | .ok block => .ok { st with steps := st.steps ++ [.toolCall block] }

/-- Does the block match `findIndex`'s predicate: a tool-call block with this id? -/
def blockMatchesId (id : String) : AgentStepBlock → Bool
  | .toolCall tc => tc.toolCallId == id
  | .markdown _ => false

/-- A record marked completed with the given end time and output. -/
def completeBlock (tc : ToolCallBlockData) (output : Option (List (String × JsValue)))
    (now : Nat) : ToolCallBlockData :=
  { tc with
    status := .COMPLETED
    endTime := some now
    output := output }

/-- Replace the FIRST block matching the id by its completed version;
`none` when no block matches (the source then dereferences `steps[-1]`
and its assertion throws). -/
def finishInSteps (id : String) (output : Option (List (String × JsValue))) (now : Nat) :
    List AgentStepBlock → Option (List AgentStepBlock)
  | [] => none
  | b :: rest =>
    if blockMatchesId id b then
      match b with
      | .toolCall tc => some (.toolCall (completeBlock tc output now) :: rest)
      | .markdown _ => none
    else (finishInSteps id output now rest).map (b :: ·)

/-- `finishToolCall`: complete the matching block with the given output. -/
def finishToolCall (st : TranscriptState) (toolCallId : String)
    (output : List (String × JsValue)) (now : Nat) : Except String TranscriptState :=
  match finishInSteps toolCallId (some output) now st.steps with
  | some steps' => .ok { st with steps := steps' }
  | none => .error "Last block must be a tool call"

/-- The fixed failure-status output written by `failToolCall`. -/
def failedToolOutput : List (String × JsValue) :=
  [("status", some (.str "FAILED"))]

/-- `failToolCall`: complete the matching block with the fixed failure output. -/
def failToolCall (st : TranscriptState) (toolCallId : String) (now : Nat) :
    Except String TranscriptState :=
  match finishInSteps toolCallId (some failedToolOutput) now st.steps with
  | some steps' => .ok { st with steps := steps' }
  | none => .error "Last block must be a tool call"

/-- An option list whose second value is an array, exercising rule 4's
index-keyed matching. -/
def arrayOptions : List DropdownOption :=
  [⟨"A", .str "x"⟩, ⟨"B", .arr [.num 5, .num 6]⟩]

/-- The example option list from the specification. -/
def cityOptions : List DropdownOption :=
  [⟨"Paris", .str "PAR"⟩, ⟨"London", .str "LON"⟩]

/-- The post-processing step of the specification: attach the description if
any, and wrap in nullable exactly when the property is not required. -/
def specPostProcess (property : PieceProperty) (base : Schema) : Schema :=
  let withDescr : Schema :=
    match property.description with
    | some d => .sDescribe d base
    | none => base
  if property.required then withDescr else .sNullable withDescr

/-- Does any node of the schema carry a description? -/
def Schema.mentionsDescription : Schema → Bool
  | .sDescribe _ _ => true
  | .sNullable inner => inner.mentionsDescription
  | _ => false

/-- Is the schema wrapped in `nullable` at the top? -/
def Schema.isNullable : Schema → Bool
  | .sNullable _ => true
  | _ => false

/-- A collaborator environment whose external calls are all unavailable. -/
def stubEnv : Env :=
  { modelText := fun _ => ""
    executeProps := fun _ _ => .error "unavailable" }

/-- An optional ARRAY property that declares a description. -/
def arrayListProp : PieceProperty :=
  { type := .ARRAY, required := false, description := some "list of items" }

/-- A required short-text property. -/
def textProp : PieceProperty := { type := .SHORT_TEXT, required := true }

/-- A default value that is a recognisable object-schema descriptor. -/
def descriptorDefault : Json :=
  .obj [("type", .str "object"),
        ("properties", .obj [("x", .obj [("type", .str "number")])]),
        ("required", .arr [.str "x"])]

/-- A top-level OBJECT property carrying that descriptor as default value. -/
def objectPropWithDescriptor : PieceProperty :=
  { type := .OBJECT, required := true, defaultValue := some descriptorDefault }

/-- A richer descriptor exercising each field-derivation rule. -/
def richDescriptor : Json :=
  .obj [("type", .str "object"),
        ("properties", .obj
          [("num", .obj [("type", .str "integer")]),
           ("flag", .obj [("type", .str "boolean")]),
           ("items", .obj [("type", .str "array")]),
           ("note", .obj [])]),
        ("required", .arr [.str "num"])]

/-- A descriptor whose `properties` is an ARRAY — still accepted by the
source's `typeof === 'object'` check, deriving an index-keyed schema. -/
def arrayPropsDescriptor : Json :=
  .obj [("type", .str "object"),
        ("properties", .arr [.obj [("type", .str "number")], .obj []]),
        ("required", .arr [.str "0"])]

/-- A JSON-blob property with no default. -/
def jsonBlobProp : PieceProperty := { type := .JSON, required := true }

/-- The recovery guard of the catch handler, as one predicate. -/
def recoveryCondition (e : EngineError) : Bool :=
  match e with
  | .noObjectGenerated c t => c && jsStartsWith t fencedJson && jsEndsWith t fence
  | _ => false

/-- The single-property example action used by concrete runs. -/
def sampleAction : List (String × PieceProperty) := [("name", textProp)]

/-- An operation with no predefined input. -/
def plainOp : Operation := { actionName := "act" }

/-- An operation seeding a cleartext auth secret. -/
def authOp : Operation := { actionName := "act", auth := some (.str "SECRET") }

/-- A model that answers with prose that is not JSON. -/
def proseEnv : Env :=
  { modelText := fun _ => "not json at all"
    executeProps := fun _ _ => .error "unavailable" }

/-- A model whose failure text is a fenced JSON object smuggling an `auth`
key that was never requested. -/
def evilEnv : Env :=
  { modelText := fun _ => "```json\x7b\"auth\": \"evil\"\x7d```"
    executeProps := fun _ _ => .error "unavailable" }

/-- A model that answers the single requested property. -/
def goodEnv : Env :=
  { modelText := fun _ => "\x7b\"name\": \"Alice\"\x7d"
    executeProps := fun _ _ => .error "unavailable" }

/-- A runtime reporting the step as succeeded. -/
def okRuntime : List (String × JsValue) → Except String RuntimeOutput := fun _ =>
  .ok ⟨[("act", ⟨some (.str "done"), none, .SUCCEEDED⟩)]⟩

/-- A fully working executor environment. -/
def sampleExecEnv : ExecEnv :=
  ⟨.ok sampleAction, fun _ => .ok [["name"]], goodEnv, 1, okRuntime⟩

/-- An executor environment whose action lookup fails. -/
def failingExecEnv : ExecEnv :=
  ⟨.error "ActionNotFound", fun _ => .ok [["name"]], goodEnv, 1, okRuntime⟩

/-- A one-block transcript holding an in-progress tool call `call1`. -/
def demoStarted : TranscriptState :=
  { prompt := "p"
    status := .IN_PROGRESS
    steps := [.toolCall
      ⟨"send", "call1", .IN_PROGRESS, [], none, 5, none, .PIECE,
       none, some "gmail", some "1.0.0", some "sendEmail", none, none⟩]
    structuredOutput := none }

/-- The same transcript after `finishToolCall` at time 9. -/
def demoFinished : TranscriptState :=
  { prompt := "p"
    status := .IN_PROGRESS
    steps := [.toolCall
      ⟨"send", "call1", .COMPLETED, [], some [("r", some (.str "ok"))], 5, some 9, .PIECE,
       none, some "gmail", some "1.0.0", some "sendEmail", none, none⟩]
    structuredOutput := none }

/-- `detail.options && detail.options.length > 0` as a predicate. -/
def detailHasOptions (d : PropertyDetail) : Bool :=
  match d.options with
  | some opts => !opts.isEmpty
  | none => false

/-- A secret-text property declaration. -/
def secretProp : PieceProperty := { type := .SECRET_TEXT, required := true }

/-- An action declaring only a secret-text property. -/
def secretAction : List (String × PieceProperty) := [("token", secretProp)]

/-- C1: for every non-empty option list the Value Reconciler returns the
first match of the fixed ladder (content equality, case-insensitive label
equality, case-insensitive label containment, shared-key match between keyed
structures — objects or arrays, whose JavaScript keys are index strings —
first-option fallback), and on the options
`[{label:"Paris", value:"PAR"}, {label:"London", value:"LON"}]` the extracted
values `"paris"`, `"I live in Paris"` and `"Tokyo"` all yield `"PAR"`;
extracted `[5,9]` against an option valued `[5,6]` matches on the shared
index key. -/
theorem matchDropdownValue_follows_ladder (v : Json) (opts : List DropdownOption)
    (h : opts ≠ []) :
    matchDropdownValue v opts = reconcileSpec v opts
    ∧ matchDropdownValue (.str "paris") cityOptions = .str "PAR"
    ∧ matchDropdownValue (.str "I live in Paris") cityOptions = .str "PAR"
    ∧ matchDropdownValue (.str "Tokyo") cityOptions = .str "PAR"
    ∧ matchDropdownValue (.arr [.num 5, .num 9]) arrayOptions = .arr [.num 5, .num 6] := by
  refine ⟨?_, rfl, rfl, rfl, rfl⟩
  match opts with
  | [] => exact absurd rfl h
  | o0 :: rest =>
    simp only [matchDropdownValue, reconcileSpec]
    cases (o0 :: rest).find? (fun o => stringify o.value == stringify v) <;>
      cases (o0 :: rest).find? (fun o => jsToLower o.label == jsToLower (extractedStrOf v)) <;>
        cases (o0 :: rest).find? (fun o => jsIncludes (jsToLower (extractedStrOf v)) (jsToLower o.label)) <;>
          cases v <;> rfl

/-- Witness for C1 at a concrete input. -/
theorem matchDropdownValue_follows_ladder_witness :
    cityOptions ≠ []
    ∧ (matchDropdownValue .null cityOptions = reconcileSpec .null cityOptions
       ∧ matchDropdownValue (.str "paris") cityOptions = .str "PAR"
       ∧ matchDropdownValue (.str "I live in Paris") cityOptions = .str "PAR"
       ∧ matchDropdownValue (.str "Tokyo") cityOptions = .str "PAR"
       ∧ matchDropdownValue (.arr [.num 5, .num 9]) arrayOptions = .arr [.num 5, .num 6]) :=
  ⟨by unfold cityOptions; exact List.cons_ne_nil _ _,
   matchDropdownValue_follows_ladder .null cityOptions
     (by unfold cityOptions; exact List.cons_ne_nil _ _)⟩

/-- C5 counterexample: an optional ARRAY property that declares a
description — the source's `ARRAY` case returns early, so the produced
schema is the bare array-of-string schema without the declared description
and without the nullable wrapper the claim requires for every supported
type. -/
theorem propertyToSchema_array_early_return :
    propertyToSchema stubEnv 1 "items" arrayListProp [] = .ok .sArrayString
    ∧ arrayListProp.description = some "list of items"
    ∧ arrayListProp.required = false
    ∧ Schema.mentionsDescription .sArrayString = false
    ∧ Schema.isNullable .sArrayString = false :=
  ⟨rfl, rfl, rfl, rfl, rfl⟩

/-- C5 (amended): for every supported property type EXCEPT `ARRAY`, the
synthesized schema carries the property's description whenever one is
declared and is wrapped as nullable exactly when the property is not
required (the `specPostProcess` shape); a required NUMBER property yields a
schema accepting `42` and rejecting the string `"42"`, and the optional
variant additionally accepts null/absence. -/
theorem propertyToSchema_postprocessing
    (env : Env) (fuel : Nat) (name : String) (input : List (String × JsValue))
    (prop : PieceProperty) (s : Schema)
    (hArr : prop.type ≠ .ARRAY)
    (h : propertyToSchema env fuel name prop input = .ok s) :
    (∃ base, s = specPostProcess prop base)
    ∧ propertyToSchema env fuel name { type := .NUMBER, required := true } input = .ok .sNumber
    ∧ accepts .sNumber (.num 42) = true
    ∧ accepts .sNumber (.str "42") = false
    ∧ propertyToSchema env fuel name { type := .NUMBER, required := false } input
        = .ok (.sNullable .sNumber)
    ∧ accepts (.sNullable .sNumber) .null = true := by
  refine ⟨?_, rfl, rfl, rfl, rfl, rfl⟩
  unfold propertyToSchema propertyToSchemaGen at h
  cases htype : prop.type <;> rw [htype] at h <;>
    simp only [bind, Except.bind, pure, Except.pure] at h
  case ARRAY => exact absurd htype hArr
  case DROPDOWN =>
    split at h <;>
      exact ⟨_, by simpa [specPostProcess] using h.symm⟩
  case STATIC_DROPDOWN =>
    split at h <;>
      exact ⟨_, by simpa [specPostProcess] using h.symm⟩
  case DYNAMIC =>
    cases hb : dynSchemaFuel env fuel name input with
    | error e => rw [hb] at h; cases h
    | ok b => rw [hb] at h; exact ⟨b, by simpa [specPostProcess] using h.symm⟩
  all_goals first
    | (exact ⟨_, by simpa [specPostProcess] using h.symm⟩)
    | cases h

/-- Witness for the amended C5 theorem at a concrete input. -/
theorem propertyToSchema_postprocessing_witness :
    (textProp.type ≠ .ARRAY
     ∧ propertyToSchema stubEnv 1 "t" textProp [] = .ok .sString)
    ∧ ((∃ base, Schema.sString = specPostProcess textProp base)
       ∧ propertyToSchema stubEnv 1 "t" { type := .NUMBER, required := true } [] = .ok .sNumber
       ∧ accepts .sNumber (.num 42) = true
       ∧ accepts .sNumber (.str "42") = false
       ∧ propertyToSchema stubEnv 1 "t" { type := .NUMBER, required := false } []
           = .ok (.sNullable .sNumber)
       ∧ accepts (.sNullable .sNumber) .null = true) :=
  ⟨⟨by decide, rfl⟩,
   propertyToSchema_postprocessing stubEnv 1 "t" [] textProp .sString (by decide) rfl⟩

/-- C4 counterexample: a TOP-LEVEL property of type OBJECT whose default
value is a recognisable `{type:"object", properties, required}` descriptor
still gets the open (empty, loose) object schema — the descriptor-derivation
the claim asserts for every object/JSON property only happens for dynamic
sub-properties. -/
theorem propertyToSchema_object_default_ignored :
    propertyToSchema stubEnv 1 "payload" objectPropWithDescriptor [] = .ok (.sLooseObject [])
    ∧ objectPropWithDescriptor.defaultValue = some descriptorDefault
    ∧ tryBuildSchemaFromDefault descriptorDefault = some (.sLooseObject [("x", .sNumber)])
    ∧ Schema.sLooseObject [] ≠ .sLooseObject [("x", .sNumber)] :=
  ⟨rfl, rfl, rfl, by simp⟩

/-- C4 (amended): top-level object/JSON properties always receive the open
object schema; the descriptor-based derivation applies to object/JSON
SUB-properties discovered during dynamic schema synthesis — a recognised
`{type:"object", properties, required}` default (where `properties` may be
an object or, per the source's `typeof` check, an array with index keys)
replaces the base schema with the field-by-field derivation (number/integer
to number, boolean to boolean, array to array-of-unknown, anything else
string; required fields stay required, others nullable), and any other
non-null default is attached to the description as a structural hint; a
discovered sub-property map containing a key named "disabled" short-circuits
to the open schema, so the per-key composition below requires the key to
differ from "disabled". -/
theorem dynamic_object_default_schema (base : Schema) (prop : PieceProperty)
    (h : prop.type = .OBJECT ∨ prop.type = .JSON) :
    (prop.defaultValue = none → dynamicSubAdjust base prop = base)
    ∧ (∀ d s, prop.defaultValue = some d → tryBuildSchemaFromDefault d = some s →
        dynamicSubAdjust base prop = s)
    ∧ (∀ d, prop.defaultValue = some d → d ≠ .null → tryBuildSchemaFromDefault d = none →
        dynamicSubAdjust base prop
          = .sDescribe ("Expected structure: "
              ++ (match d with | .str s0 => s0 | other => stringify other)) base)
    ∧ (∀ env fuel name input (p : PieceProperty), p.type = .OBJECT ∨ p.type = .JSON →
        propertyToSchema env fuel name p input = .ok (specPostProcess p (.sLooseObject [])))
    ∧ tryBuildSchemaFromDefault richDescriptor
        = some (.sLooseObject
            [("num", .sNumber), ("flag", .sNullable .sBoolean),
             ("items", .sNullable .sArrayUnknown), ("note", .sNullable .sString)])
    ∧ tryBuildSchemaFromDefault arrayPropsDescriptor
        = some (.sLooseObject [("0", .sNumber), ("1", .sNullable .sString)])
    ∧ (∀ env fuel name input key p s0, key ≠ "disabled" →
        Env.executeProps env name input = .ok (.dynamicFields [(key, .prop p)]) →
        propertyToSchema env fuel key p input = .ok s0 →
        buildDynamicSchema env fuel name input = .ok (.sLooseObject [(key, dynamicSubAdjust s0 p)])) := by
  refine ⟨?_, ?_, ?_, ?_, rfl, rfl, ?_⟩
  · intro hd; simp [dynamicSubAdjust, hd]
  · intro d s hd hs
    cases d <;> simp_all [dynamicSubAdjust, tryBuildSchemaFromDefault, h]
  · intro d hd hnull hs
    cases d <;> simp_all [dynamicSubAdjust, h]
  · intro env fuel name input p hp
    rcases hp with hp | hp <;>
      simp [propertyToSchema, propertyToSchemaGen, hp, specPostProcess,
        bind, Except.bind, pure, Except.pure]
  · intro env fuel name input key p s0 hkey henv hp
    unfold propertyToSchema at hp
    simp [buildDynamicSchema, buildDynamicSchemaGen, henv, dynamicShapeGen, hp,
      hasKeyA, hkey, bind, Except.bind, pure, Except.pure]

/-- Witness for the amended C4 theorem at a concrete input. -/
theorem dynamic_object_default_schema_witness :
    (jsonBlobProp.type = .OBJECT ∨ jsonBlobProp.type = .JSON)
    ∧ jsonBlobProp.defaultValue = none
    ∧ dynamicSubAdjust .sString jsonBlobProp = .sString :=
  ⟨Or.inr rfl, rfl, (dynamic_object_default_schema .sString jsonBlobProp (Or.inr rfl)).1 rfl⟩

/-- `(a ++ b).data` unfolds to list append. -/
theorem strDataAppend (a b : String) : (a ++ b).data = a.data ++ b.data := by
  cases a; cases b; rfl

/-- Rebuilding a string from its characters is the identity. -/
theorem strMkData (s : String) : String.mk s.data = s := by cases s; rfl

/-- A list is a prefix of itself followed by anything. -/
theorem isPrefixOf_append_self (l r : List Char) : l.isPrefixOf (l ++ r) = true := by
  induction l with
  | nil => simp [List.isPrefixOf]
  | cons c cs ih => simp [List.isPrefixOf, ih]

/-- A list is a suffix of anything followed by itself. -/
theorem isSuffixOf_append_self (l r : List Char) : r.isSuffixOf (l ++ r) = true := by
  simp [List.isSuffixOf, List.reverse_append, isPrefixOf_append_self]

/-- Deleting the first occurrence of a leading pattern leaves the rest. -/
theorem replaceFirstL_self (p r : List Char) : replaceFirstL p (p ++ r) = r := by
  cases p with
  | nil =>
    cases r with
    | nil => rfl
    | cons c cs => simp [replaceFirstL, List.isPrefixOf]
  | cons c cs =>
    rw [List.cons_append]
    simp [replaceFirstL, List.isPrefixOf, isPrefixOf_append_self, List.drop_left']

/-- Deleting the first ``` of `body ++ ``` ` leaves `body` when `body` is
backtick-free. -/
theorem replaceFirstL_fence (body : List Char) (hb : '`' ∉ body) :
    replaceFirstL (['`', '`', '`'] : List Char) (body ++ ['`', '`', '`']) = body := by
  induction body with
  | nil => simpa using replaceFirstL_self (['`', '`', '`'] : List Char) []
  | cons c cs ih =>
    have hc : c ≠ '`' := fun h => hb (by simp [h])
    have hpre : (['`', '`', '`'] : List Char).isPrefixOf (c :: (cs ++ ['`', '`', '`'])) = false := by
      simp [List.isPrefixOf, Ne.symm hc]
    rw [List.cons_append]
    simp only [replaceFirstL, hpre, if_false, Bool.false_eq_true]
    rw [ih (fun hm => hb (List.mem_cons_of_mem _ hm))]

/-- Text starting with a backtick never parses as JSON. -/
theorem parseValue_backtick (fuel : Nat) (rest : List Char) :
    parseValue fuel ('`' :: rest) = none := by
  cases fuel with
  | zero => rfl
  | succ n =>
    simp [parseValue, skipWs, isWs, lbrace, nullChars, trueChars, falseChars, List.isPrefixOf]

/-- C7: a generation failure with a JSON-parse cause whose raw text is
exactly a single ```` ```json … ``` ```` fenced block (backtick-free body)
is recovered by parsing the inner text — and throws if even that inner text
does not parse; any failure outside the recovery guard propagates unchanged;
concretely the fenced `{"a":1}` text yields `{a:1}` and `not json at all`
propagates as an uncaught generation failure. -/
theorem generation_fenced_recovery (schema : Schema) (body : String) (hb : '`' ∉ body.data) :
    (generateObject ("```json" ++ (body ++ "```")) schema
       = match jsonParse body with
         | some v => .ok v
         | none => .error (.jsonParseThrow ("```json" ++ (body ++ "```"))))
    ∧ (∀ e, recoveryCondition e = false → generateCatch e = .error e)
    ∧ generateObject "```json\n\x7b\"a\":1\x7d\n```" schema = .ok (.obj [("a", .num 1)])
    ∧ generateObject "not json at all" schema
        = .error (.noObjectGenerated true "not json at all")
    ∧ resolveProperties proseEnv [["name"]] sampleAction plainOp 1
        = .error (.noObjectGenerated true "not json at all") := by
  refine ⟨?_, ?_, rfl, rfl, rfl⟩
  · have hdata2 : ("```json" ++ (body ++ "```")).data
        = fencedJson.data ++ (body.data ++ fence.data) := by
      rw [strDataAppend, strDataAppend]; rfl
    have hdata : ("```json" ++ (body ++ "```")).data
        = '`' :: ('`' :: ('`' :: ('j' :: ('s' :: ('o' :: ('n' :: (body.data ++ ['`', '`', '`']))))))) := by
      rw [hdata2]; rfl
    have hparse : jsonParse ("```json" ++ (body ++ "```")) = none := by
      unfold jsonParse
      rw [hdata, parseValue_backtick]
    have hstart : jsStartsWith ("```json" ++ (body ++ "```")) fencedJson = true := by
      rw [jsStartsWith, hdata2]; exact isPrefixOf_append_self _ _
    have hend : jsEndsWith ("```json" ++ (body ++ "```")) fence = true := by
      rw [jsEndsWith, hdata2, ← List.append_assoc]; exact isSuffixOf_append_self _ _
    have hstrip : replaceFirst fence (replaceFirst fencedJson ("```json" ++ (body ++ "```"))) = body := by
      show (⟨replaceFirstL fence.data
        (replaceFirstL fencedJson.data ("```json" ++ (body ++ "```")).data)⟩ : String) = body
      rw [hdata2, replaceFirstL_self]
      rw [show fence.data = (['`', '`', '`'] : List Char) from rfl,
        replaceFirstL_fence body.data hb]
    simp only [generateObject, hparse, generateCatch, hstart, hend, hstrip, Bool.and_self,
      Bool.true_and, Bool.and_true, if_true]
  · intro e he
    cases e <;> simp_all [generateCatch, recoveryCondition]

/-- Witness for C7 at the concrete fenced body. -/
theorem generation_fenced_recovery_witness :
    ('`' ∉ ("\n\x7b\"a\":1\x7d\n" : String).data)
    ∧ (generateObject ("```json" ++ ("\n\x7b\"a\":1\x7d\n" ++ "```")) (.sStrictObject [])
         = match jsonParse "\n\x7b\"a\":1\x7d\n" with
           | some v => .ok v
           | none => .error (.jsonParseThrow ("```json" ++ ("\n\x7b\"a\":1\x7d\n" ++ "```")))) :=
  ⟨by decide, (generation_fenced_recovery (.sStrictObject []) "\n\x7b\"a\":1\x7d\n" (by decide)).1⟩

/-- Setting a key makes it present with that value. -/
theorem lookupA_setFieldA_self {α : Type} (k : String) (v : α) (m : List (String × α)) :
    lookupA k (setFieldA k v m) = some v := by
  induction m with
  | nil => simp [setFieldA, lookupA]
  | cons kv rest ih =>
    by_cases h : kv.1 == k
    · cases kv; simp_all [setFieldA, lookupA]
    · cases kv; simp_all [setFieldA, lookupA]

/-- Inversion of `executeBody`'s success: the returned input is the resolved
input with `auth` overwritten by the redaction marker. -/
theorem executeBody_resolvedInput (env : ExecEnv) (op : Operation) (r : ExecuteToolResponse)
    (h : executeBody env op = .ok r) :
    ∃ m, r.resolvedInput = setFieldA "auth" (some (.str "Redacted")) m := by
  unfold executeBody at h
  cases h1 : env.lookupAction <;> rw [h1] at h <;>
    simp only [bind, Except.bind, pure, Except.pure, throw, throwThe, MonadExceptOf.throw] at h
  case error => cases h
  case ok props =>
  cases h2 : env.tsortLevels props <;> rw [h2] at h <;>
    simp only [bind, Except.bind, pure, Except.pure, throw, throwThe, MonadExceptOf.throw] at h
  case error => cases h
  case ok levels =>
  cases h3 : resolveProperties env.resolveEnv levels props op env.fuel <;> rw [h3] at h <;>
    simp only [bind, Except.bind, pure, Except.pure, throw, throwThe, MonadExceptOf.throw] at h
  case error => cases h
  case ok resolved =>
  cases h4 : env.runtime resolved.1 <;> rw [h4] at h <;>
    simp only [bind, Except.bind, pure, Except.pure, throw, throwThe, MonadExceptOf.throw] at h
  case error => cases h
  case ok rout =>
  cases h5 : lookupA op.actionName rout.steps <;> rw [h5] at h <;>
    simp only [bind, Except.bind, pure, Except.pure, throw, throwThe, MonadExceptOf.throw] at h
  case none => cases h
  case some sr =>
    cases h
    exact ⟨resolved.1, rfl⟩

/-- C2: the Action Executor never raises past its boundary — any error in
the chain yields a failure result whose message carries the error's message,
and a successful chain yields failure status exactly when the runtime
reported the step as failed, success otherwise. -/
theorem execute_error_boundary (env : ExecEnv) (op : Operation) :
    (∀ e, executeBody env op = .error e →
       execute env op = ⟨.FAILED, none, [], some ("Tool execution error: " ++ e.message)⟩)
    ∧ (∀ props levels resolved rout sr,
         env.lookupAction = .ok props →
         env.tsortLevels props = .ok levels →
         resolveProperties env.resolveEnv levels props op env.fuel = .ok resolved →
         env.runtime resolved.1 = .ok rout →
         lookupA op.actionName rout.steps = some sr →
         execute env op = ⟨(if sr.status = .FAILED then .FAILED else .SUCCESS), sr.output,
            setFieldA "auth" (some (.str "Redacted")) resolved.1, sr.errorMessage⟩) := by
  constructor
  · intro e he
    simp [execute, he]
  · intro props levels resolved rout sr h1 h2 h3 h4 h5
    simp [execute, executeBody, h1, h2, h3, h4, h5, bind, Except.bind, pure, Except.pure]

/-- Witness for C2 at a concrete failing environment. -/
theorem execute_error_boundary_witness :
    (executeBody failingExecEnv authOp = .error (.externalError "ActionNotFound"))
    ∧ execute failingExecEnv authOp
        = ⟨.FAILED, none, [],
           some ("Tool execution error: " ++ (EngineError.externalError "ActionNotFound").message)⟩ :=
  ⟨rfl, (execute_error_boundary failingExecEnv authOp).1 _ rfl⟩

/-- C3: the `auth` field of the returned resolved input is always the fixed
redaction marker on the success path, the failure path returns an empty
resolved input, and in no outcome does the returned `auth` field carry any
value other than the marker — even though the runtime consumes the
unredacted input (visible in `executeBody`, which passes `resolved.1` to
`env.runtime`). -/
theorem execute_auth_redaction (env : ExecEnv) (op : Operation) :
    (∀ r, executeBody env op = .ok r →
       lookupA "auth" (execute env op).resolvedInput = some (some (.str "Redacted")))
    ∧ (∀ e, executeBody env op = .error e → (execute env op).resolvedInput = [])
    ∧ (∀ v, v ≠ Json.str "Redacted" →
       lookupA "auth" (execute env op).resolvedInput ≠ some (some v)) := by
  refine ⟨?_, ?_, ?_⟩
  · intro r hr
    obtain ⟨m, hm⟩ := executeBody_resolvedInput env op r hr
    simp [execute, hr, hm, lookupA_setFieldA_self]
  · intro e he
    simp [execute, he]
  · intro v hv
    cases hb : executeBody env op with
    | error e => simp [execute, hb, lookupA]
    | ok r =>
      obtain ⟨m, hm⟩ := executeBody_resolvedInput env op r hb
      have hres : (execute env op).resolvedInput = setFieldA "auth" (some (.str "Redacted")) m := by
        simp [execute, hb, hm]
      rw [hres, lookupA_setFieldA_self]
      intro h
      simp only [Option.some.injEq] at h
      exact hv h.symm

/-- Witness for C3 at a concrete run seeding a cleartext secret. -/
theorem execute_auth_redaction_witness :
    (Json.str "SECRET" ≠ Json.str "Redacted")
    ∧ lookupA "auth" (execute sampleExecEnv authOp).resolvedInput
        ≠ some (some (.str "SECRET")) :=
  ⟨by simp, (execute_auth_redaction sampleExecEnv authOp).2.2 _ (by simp)⟩

/-- Inversion of a successful `finishInSteps`: the FIRST matching tool-call
block (at some index) is replaced by its completed version; everything else
is untouched. -/
theorem finishInSteps_some (id : String) (out : Option (List (String × JsValue))) (now : Nat) :
    ∀ steps steps', finishInSteps id out now steps = some steps' →
      ∃ i tc, steps.get? i = some (.toolCall tc) ∧ tc.toolCallId = id ∧
        steps' = steps.set i (.toolCall (completeBlock tc out now)) := by
  intro steps
  induction steps with
  | nil => intro steps' h; cases h
  | cons b rest ih =>
    intro steps' h
    by_cases hm : blockMatchesId id b
    · cases b with
      | markdown t => simp [blockMatchesId] at hm
      | toolCall tc =>
        simp [finishInSteps, hm] at h
        simp [blockMatchesId] at hm
        exact ⟨0, tc, rfl, hm, h.symm⟩
    · cases hrec : finishInSteps id out now rest with
      | none => simp [finishInSteps, hm, hrec] at h
      | some rest' =>
        simp [finishInSteps, hm, hrec] at h
        obtain ⟨i, tc, h1, h2, h3⟩ := ih rest' hrec
        exact ⟨i + 1, tc, by simpa using h1, h2, by simp [← h, h3]⟩

/-- When no block carries the id, the updater reports failure. -/
theorem finishInSteps_noneOf (id : String) (out : Option (List (String × JsValue))) (now : Nat) :
    ∀ steps, (∀ b ∈ steps, blockMatchesId id b = false) →
      finishInSteps id out now steps = none := by
  intro steps
  induction steps with
  | nil => intro _; rfl
  | cons b rest ih =>
    intro hall
    have hb := hall b (List.mem_cons_self b rest)
    simp [finishInSteps, hb, ih (fun x hx => hall x (List.mem_cons_of_mem b hx))]

/-- Whatever tool kind matched, a successfully created record starts
in-progress with no end time and no output, carrying the caller's id,
input and start timestamp. -/
theorem getToolMetadata_ok_fields (name id : String) (input : List (String × JsValue))
    (now : Nat) (tools : List AgentTool) (b : ToolCallBlockData)
    (h : getToolMetadata name id input now tools = .ok b) :
    b.status = .IN_PROGRESS ∧ b.endTime = none ∧ b.toolCallId = id
      ∧ b.startTime = now ∧ b.input = input ∧ b.output = none := by
  unfold getToolMetadata at h
  cases hf : findMatchingTool name tools <;> rw [hf] at h <;> dsimp only at h
  · cases h
  case some tool =>
    cases htype : tool.type <;> rw [htype] at h <;> dsimp only at h
    case PIECE =>
      cases hmd : tool.pieceMetadata <;> rw [hmd] at h
      · cases h
      · cases h; exact ⟨rfl, rfl, rfl, rfl, rfl, rfl⟩
    case FLOW =>
      cases hmd : tool.externalFlowId <;> rw [hmd] at h
      · cases h
      · cases h; exact ⟨rfl, rfl, rfl, rfl, rfl, rfl⟩
    case MCP =>
      cases hmd : tool.serverUrl <;> rw [hmd] at h
      · cases h
      · cases h; exact ⟨rfl, rfl, rfl, rfl, rfl, rfl⟩

/-- C9: every trace entry is created in-progress by `startToolCall` (appended
as a new block, no end time), `finishToolCall`/`failToolCall` complete
exactly the single matching block, stamping the end time and the given
output (or the fixed failure-status output), and calling either with an id
matching no block fails hard. -/
theorem toolCall_lifecycle :
    (∀ st name id input tools now st',
       startToolCall st name id input tools now = .ok st' →
       ∃ tc, st'.steps = st.steps ++ [.toolCall tc] ∧ tc.status = .IN_PROGRESS
         ∧ tc.endTime = none ∧ tc.toolCallId = id ∧ tc.startTime = now ∧ tc.input = input
         ∧ tc.output = none)
    ∧ (∀ st id out now st',
       finishToolCall st id out now = .ok st' →
       ∃ i tc, st.steps.get? i = some (.toolCall tc) ∧ tc.toolCallId = id
         ∧ st'.steps = st.steps.set i (.toolCall (completeBlock tc (some out) now)))
    ∧ (∀ st id now st',
       failToolCall st id now = .ok st' →
       ∃ i tc, st.steps.get? i = some (.toolCall tc) ∧ tc.toolCallId = id
         ∧ st'.steps = st.steps.set i (.toolCall (completeBlock tc (some failedToolOutput) now)))
    ∧ (∀ st id out now, (∀ b ∈ st.steps, blockMatchesId id b = false) →
       finishToolCall st id out now = .error "Last block must be a tool call"
       ∧ failToolCall st id now = .error "Last block must be a tool call")
    ∧ (∀ tc out now, (completeBlock tc out now).status = .COMPLETED
        ∧ (completeBlock tc out now).endTime = some now
        ∧ (completeBlock tc out now).output = out) := by
  refine ⟨?_, ?_, ?_, ?_, fun _ _ _ => ⟨rfl, rfl, rfl⟩⟩
  · intro st name id input tools now st' h
    unfold startToolCall at h
    cases hg : getToolMetadata name id input now tools <;> rw [hg] at h
    · cases h
    case ok block =>
      cases h
      obtain ⟨f1, f2, f3, f4, f5, f6⟩ := getToolMetadata_ok_fields name id input now tools block hg
      exact ⟨block, rfl, f1, f2, f3, f4, f5, f6⟩
  · intro st id out now st' h
    unfold finishToolCall at h
    cases hi : finishInSteps id (some out) now st.steps <;> rw [hi] at h
    · cases h
    case some steps' =>
      cases h
      exact finishInSteps_some id (some out) now st.steps steps' hi
  · intro st id now st' h
    unfold failToolCall at h
    cases hi : finishInSteps id (some failedToolOutput) now st.steps <;> rw [hi] at h
    · cases h
    case some steps' =>
      cases h
      exact finishInSteps_some id (some failedToolOutput) now st.steps steps' hi
  · intro st id out now hall
    constructor
    · simp [finishToolCall, finishInSteps_noneOf id (some out) now st.steps hall]
    · simp [failToolCall, finishInSteps_noneOf id (some failedToolOutput) now st.steps hall]

/-- Witness for C9: a concrete start/finish pair. -/
theorem toolCall_lifecycle_witness :
    (finishToolCall demoStarted "call1" [("r", some (.str "ok"))] 9 = .ok demoFinished)
    ∧ (∃ i tc, demoStarted.steps.get? i = some (.toolCall tc) ∧ tc.toolCallId = "call1"
        ∧ demoFinished.steps
            = demoStarted.steps.set i
                (.toolCall (completeBlock tc (some [("r", some (.str "ok"))]) 9))) :=
  ⟨rfl, (toolCall_lifecycle).2.1 demoStarted "call1" [("r", some (.str "ok"))] 9 demoFinished rfl⟩

/-- Keys set by `setField` do not disturb other keys. -/
theorem lookupField_setField_ne (k k' : String) (v : Json) (fs : List (String × Json))
    (h : k' ≠ k) : lookupField k (setField k' v fs) = lookupField k fs := by
  induction fs with
  | nil => simp [setField, lookupField, h]
  | cons kv rest ih =>
    obtain ⟨k0, v0⟩ := kv
    by_cases hk : k0 == k'
    · have hk0 : k0 = k' := by simpa using hk
      simp [setField, hk, lookupField, h, hk0]
    · simp [setField, hk, lookupField, ih]

/-- The reconciliation loop touches exactly the keys for which some detail
carries a non-empty option list and the key is present in the extracted
object; every other key of the extracted object keeps its raw model value. -/
theorem applyReconciliation_preserves :
    ∀ details fs out', applyReconciliation details (.obj fs) = .ok out' →
      ∃ fs', out' = .obj fs'
        ∧ ∀ k, (∀ d ∈ details, d.name = k →
            detailHasOptions d = false ∨ lookupField k fs = none) →
          lookupField k fs' = lookupField k fs := by
  intro details
  induction details with
  | nil =>
    intro fs out' h
    cases h
    exact ⟨fs, rfl, fun k _ => rfl⟩
  | cons d rest ih =>
    intro fs out' h
    cases hopt : d.options with
    | none =>
      rw [applyReconciliation, hopt] at h
      obtain ⟨fs', h1, h2⟩ := ih fs out' h
      exact ⟨fs', h1, fun k hk => h2 k (fun d' hd' => hk d' (List.mem_cons_of_mem d hd'))⟩
    | some opts =>
      rw [applyReconciliation, hopt] at h
      dsimp only at h
      by_cases hemp : opts.isEmpty
      · rw [if_pos hemp] at h
        obtain ⟨fs', h1, h2⟩ := ih fs out' h
        exact ⟨fs', h1, fun k hk => h2 k (fun d' hd' => hk d' (List.mem_cons_of_mem d hd'))⟩
      · rw [if_neg hemp] at h
        cases hlk : lookupField d.name fs with
        | none =>
          rw [hlk] at h
          obtain ⟨fs', h1, h2⟩ := ih fs out' h
          exact ⟨fs', h1, fun k hk => h2 k (fun d' hd' => hk d' (List.mem_cons_of_mem d hd'))⟩
        | some v =>
          rw [hlk] at h
          obtain ⟨fs', h1, h2⟩ := ih (setField d.name (matchDropdownValue v opts) fs) out' h
          refine ⟨fs', h1, fun k hk => ?_⟩
          have hne : d.name ≠ k := by
            intro he
            rcases hk d (List.mem_cons_self d rest) he with hfalse | hnone
            · simp [detailHasOptions, hopt, hemp] at hfalse
            · rw [he] at hlk; rw [hlk] at hnone; cases hnone
          have hset := lookupField_setField_ne k d.name (matchDropdownValue v opts) fs hne
          rw [← hset]
          refine h2 k (fun d' hd' he' => ?_)
          rcases hk d' (List.mem_cons_of_mem d hd') he' with hfalse | hnone
          · exact Or.inl hfalse
          · exact Or.inr (by rw [hset]; exact hnone)

/-- C10: the reconciler on an empty option list is the identity, and the
orchestrator's reconciliation loop only rewrites a property whose detail
carries a non-empty option list and whose name is a key of the extracted
object — every other property keeps the model's raw value. -/
theorem reconciler_empty_options_identity :
    (∀ v, matchDropdownValue v [] = v)
    ∧ (∀ details fs out', applyReconciliation details (.obj fs) = .ok out' →
        ∃ fs', out' = .obj fs'
          ∧ ∀ k, (∀ d ∈ details, d.name = k →
              detailHasOptions d = false ∨ lookupField k fs = none) →
            lookupField k fs' = lookupField k fs) :=
  ⟨fun _ => rfl, applyReconciliation_preserves⟩

/-- Witness for C10 at a concrete detail with an empty option list. -/
theorem reconciler_empty_options_identity_witness :
    (applyReconciliation [⟨"city", .DROPDOWN, none, some [], none⟩]
        (.obj [("city", .str "raw")]) = .ok (.obj [("city", .str "raw")]))
    ∧ (∃ fs', Json.obj [("city", .str "raw")] = .obj fs'
        ∧ ∀ k, (∀ d ∈ [(⟨"city", .DROPDOWN, none, some [], none⟩ : PropertyDetail)],
              d.name = k → detailHasOptions d = false
                ∨ lookupField k [("city", .str "raw")] = none) →
          lookupField k fs' = lookupField k [("city", .str "raw")]) :=
  ⟨rfl, (reconciler_empty_options_identity).2 _ _ _ rfl⟩


theorem hasKeyA_cons {α : Type} (k k0 : String) (v0 : α) (rest : List (String × α)) :
    hasKeyA k ((k0, v0) :: rest) = (k0 == k || hasKeyA k rest) := rfl

theorem lookupA_setFieldA_ne {α : Type} (k k' : String) (v : α) (m : List (String × α))
    (h : k' ≠ k) : lookupA k (setFieldA k' v m) = lookupA k m := by
  induction m with
  | nil => simp [setFieldA, lookupA, h]
  | cons kv rest ih =>
    obtain ⟨k0, v0⟩ := kv
    by_cases hk : k0 == k'
    · have hk0 : k0 = k' := by simpa using hk
      simp [setFieldA, hk, lookupA, h, hk0]
    · simp [setFieldA, hk, lookupA, ih]

theorem hasKeyA_setFieldA_mono {α : Type} (k k' : String) (v : α) (m : List (String × α))
    (h : hasKeyA k m = true) : hasKeyA k (setFieldA k' v m) = true := by
  induction m with
  | nil => simp [hasKeyA] at h
  | cons kv rest ih =>
    obtain ⟨k0, v0⟩ := kv
    by_cases hk : (k0 == k') = true
    · have hk0 : k0 = k' := by simpa using hk
      rw [setFieldA, if_pos hk, hasKeyA_cons]
      rw [hasKeyA_cons, hk0] at h
      exact h
    · rw [setFieldA, if_neg hk, hasKeyA_cons]
      rw [hasKeyA_cons] at h
      cases hh : (k0 == k) with
      | true => simp
      | false =>
        rw [hh] at h
        simp only [Bool.false_or] at h ⊢
        exact ih h

theorem hasKeyA_of_lookupA {α : Type} (k : String) (m : List (String × α)) (v : α)
    (h : lookupA k m = some v) : hasKeyA k m = true := by
  induction m with
  | nil => simp [lookupA] at h
  | cons kv rest ih =>
    obtain ⟨k0, v0⟩ := kv
    by_cases hk : (k0 == k) = true
    · rw [hasKeyA_cons, hk]; rfl
    · rw [lookupA, if_neg hk] at h
      rw [hasKeyA_cons, Bool.eq_false_iff.mpr hk]
      simp only [Bool.false_or]
      exact ih h

theorem hasKeyA_mergeSpread_mono (k : String) (result : List (String × JsValue)) (ext : Json)
    (h : hasKeyA k result = true) : hasKeyA k (mergeSpread result ext) = true := by
  cases ext with
  | obj fs =>
    rw [mergeSpread]
    induction fs generalizing result with
    | nil => exact h
    | cons kv rest ih =>
      rw [List.foldl_cons]
      exact ih (setFieldA kv.1 (some kv.2) result) (hasKeyA_setFieldA_mono _ _ _ _ h)
  | null => exact h
  | bool b => exact h
  | num n => exact h
  | str s => exact h
  | arr xs => exact h

theorem lookupA_mergeSpread_notin (p : String) (result : List (String × JsValue))
    (fs : List (String × Json)) (hp : ∀ kv ∈ fs, kv.1 ≠ p) :
    lookupA p (mergeSpread result (.obj fs)) = lookupA p result := by
  rw [mergeSpread]
  induction fs generalizing result with
  | nil => rfl
  | cons kv rest ih =>
    rw [List.foldl_cons]
    rw [ih (setFieldA kv.1 (some kv.2) result) (fun x hx => hp x (List.mem_cons_of_mem kv hx))]
    exact lookupA_setFieldA_ne p kv.1 (some kv.2) result (hp kv (List.mem_cons_self kv rest))

theorem collectLevel_fills (env : Env) (action : List (String × PieceProperty)) (fuel : Nat)
    (result : List (String × JsValue)) :
    ∀ props fills details, collectLevel env action fuel result props = .ok (fills, details) →
      ∀ nm ∈ fills.map Prod.fst, ∃ p, lookupA nm action = some p
        ∧ skipTypes.contains p.type = false ∧ hasKeyA nm result = false := by
  intro props
  induction props with
  | nil =>
    intro fills details h nm hnm
    cases h
    simp at hnm
  | cons property rest ih =>
    intro fills details h nm hnm
    rw [collectLevel] at h
    cases hl : lookupA property action <;> rw [hl] at h <;> dsimp only at h
    · cases h
    · rename_i pa
      by_cases hskip : (skipTypes.contains pa.type || hasKeyA property result) = true
      · rw [if_pos hskip] at h
        exact ih fills details h nm hnm
      · rw [if_neg hskip] at h
        simp only [bind, Except.bind, pure, Except.pure] at h
        cases hs : propertyToSchema env fuel property pa result <;> rw [hs] at h
        · cases h
        · rename_i sch
          cases hd : buildPropertyDetail env property pa result <;> rw [hd] at h
          · cases h
          · rename_i det
            cases hrest : collectLevel env action fuel result rest <;> rw [hrest] at h <;>
              dsimp only at h
            · cases h
            · rename_i pr
              obtain ⟨fills', details'⟩ := pr
              cases h
              rcases List.mem_map.mp hnm with ⟨x, hx, hxeq⟩
              rcases List.mem_cons.mp hx with hx1 | hx2
              · subst hx1
                subst hxeq
                rw [Bool.or_eq_true] at hskip
                push_neg at hskip
                refine ⟨pa, hl, ?_, ?_⟩
                · exact Bool.eq_false_iff.mpr hskip.1
                · exact Bool.eq_false_iff.mpr hskip.2
              · exact ih fills' details' hrest nm (hxeq ▸ List.mem_map.mpr ⟨x, hx2, rfl⟩)

theorem processLevel_step (env : Env) (action : List (String × PieceProperty)) (fuel : Nat)
    (result : List (String × JsValue)) (calls : List (List String)) (props : List String)
    (out : List (String × JsValue) × List (List String))
    (h : processLevel env action fuel (result, calls) props = .ok out) :
    (∀ k, hasKeyA k result = true → hasKeyA k out.1 = true)
    ∧ (∃ newcalls, out.2 = calls ++ newcalls
        ∧ ∀ c ∈ newcalls, ∀ nm ∈ c, ∃ p, lookupA nm action = some p
            ∧ skipTypes.contains p.type = false ∧ hasKeyA nm result = false) := by
  simp only [processLevel, bind, Except.bind, pure, Except.pure] at h
  cases hc : collectLevel env action fuel result props <;> rw [hc] at h
  · cases h
  · rename_i pr
    obtain ⟨fills, details⟩ := pr
    dsimp only at h
    by_cases hfe : fills.isEmpty
    · rw [if_pos hfe] at h
      cases h
      exact ⟨fun k hk => hk, [], by simp, by simp⟩
    · rw [if_neg hfe] at h
      cases hg : generateObject (env.modelText calls.length) (.sStrictObject fills) <;>
        rw [hg] at h <;> dsimp only at h
      · cases h
      · rename_i output
        cases hr : applyReconciliation details output <;> rw [hr] at h
        · cases h
        · rename_i extracted
          cases h
          refine ⟨fun k hk => hasKeyA_mergeSpread_mono k result extracted hk,
            [fills.map Prod.fst], rfl, ?_⟩
          intro c hc' nm hnm
          rw [List.mem_singleton] at hc'
          subst hc'
          exact collectLevel_fills env action fuel result props fills details hc nm hnm

theorem resolveFold (env : Env) (action : List (String × PieceProperty)) (fuel : Nat) :
    ∀ (levels : List (List String)) (state out : List (String × JsValue) × List (List String)),
      List.foldlM (processLevel env action fuel) state levels = .ok out →
      (∀ k, hasKeyA k state.1 = true → hasKeyA k out.1 = true)
      ∧ (∃ newcalls, out.2 = state.2 ++ newcalls
          ∧ ∀ c ∈ newcalls, ∀ nm ∈ c, ∃ p, lookupA nm action = some p
              ∧ skipTypes.contains p.type = false ∧ hasKeyA nm state.1 = false) := by
  intro levels
  induction levels with
  | nil =>
    intro state out h
    cases h
    exact ⟨fun k hk => hk, [], by simp, by simp⟩
  | cons lvl rest ih =>
    intro state out h
    rw [List.foldlM_cons] at h
    simp only [bind, Except.bind] at h
    cases hp : processLevel env action fuel state lvl <;> rw [hp] at h
    · cases h
    · rename_i st1
      obtain ⟨mono1, new1, hcalls1, hcond1⟩ :=
        processLevel_step env action fuel state.1 state.2 lvl st1 (by rw [← hp])
      obtain ⟨mono2, new2, hcalls2, hcond2⟩ := ih st1 out h
      refine ⟨fun k hk => mono2 k (mono1 k hk), new1 ++ new2, ?_, ?_⟩
      · rw [hcalls2, hcalls1, List.append_assoc]
      · intro c hcmem nm hnm
        rcases List.mem_append.mp hcmem with hmem | hmem
        · exact hcond1 c hmem nm hnm
        · obtain ⟨p, hp1, hp2, hp3⟩ := hcond2 c hmem nm hnm
          refine ⟨p, hp1, hp2, ?_⟩
          cases hkey : hasKeyA nm state.1 with
          | false => rfl
          | true => rw [mono1 nm hkey] at hp3; cases hp3
theorem generateObject_parsed (text : String) (schema : Schema) (out w : Json)
    (hw : jsonParse text = some w) (h : generateObject text schema = .ok out) :
    out = w ∧ accepts schema w = true := by
  unfold generateObject at h
  rw [hw] at h
  dsimp only at h
  by_cases ha : accepts schema w
  · rw [if_pos ha] at h
    cases h
    exact ⟨rfl, ha⟩
  · rw [if_neg ha] at h
    simp [generateCatch] at h

theorem acceptsStrict_obj (shape : List (String × Schema)) (w : Json)
    (h : accepts (.sStrictObject shape) w = true) :
    ∃ fs, w = .obj fs ∧ ∀ kv ∈ fs, shape.any (fun p => p.1 == kv.1) = true := by
  cases w with
  | obj fs =>
    simp only [accepts, Bool.and_eq_true] at h
    exact ⟨fs, rfl, fun kv hkv => List.all_eq_true.mp h.2 kv hkv⟩
  | null => simp [accepts] at h
  | bool b => simp [accepts] at h
  | num n => simp [accepts] at h
  | str s => simp [accepts] at h
  | arr xs => simp [accepts] at h

theorem setField_keys (k : String) (v w : Json) :
    ∀ fs, lookupField k fs = some w →
      (setField k v fs).map Prod.fst = fs.map Prod.fst := by
  intro fs
  induction fs with
  | nil => intro h; cases h
  | cons kv rest ih =>
    intro h
    obtain ⟨k0, v0⟩ := kv
    by_cases hk : (k0 == k) = true
    · have hk0 : k0 = k := by simpa using hk
      subst hk0
      simp [setField]
    · rw [lookupField, if_neg hk] at h
      simp [setField, hk, List.map_cons, ih h]

theorem applyReconciliation_keys :
    ∀ details fs out', applyReconciliation details (.obj fs) = .ok out' →
      ∃ fs', out' = .obj fs' ∧ fs'.map Prod.fst = fs.map Prod.fst := by
  intro details
  induction details with
  | nil =>
    intro fs out' h
    cases h
    exact ⟨fs, rfl, rfl⟩
  | cons d rest ih =>
    intro fs out' h
    cases hopt : d.options with
    | none =>
      rw [applyReconciliation, hopt] at h
      exact ih fs out' h
    | some opts =>
      rw [applyReconciliation, hopt] at h
      dsimp only at h
      by_cases hemp : opts.isEmpty
      · rw [if_pos hemp] at h
        exact ih fs out' h
      · rw [if_neg hemp] at h
        cases hlk : lookupField d.name fs with
        | none =>
          rw [hlk] at h
          exact ih fs out' h
        | some v =>
          rw [hlk] at h
          obtain ⟨fs', h1, h2⟩ := ih (setField d.name (matchDropdownValue v opts) fs) out' h
          exact ⟨fs', h1, by rw [h2, setField_keys d.name (matchDropdownValue v opts) v fs hlk]⟩
theorem processLevel_preserves (env : Env) (action : List (String × PieceProperty)) (fuel : Nat)
    (result : List (String × JsValue)) (calls : List (List String)) (props : List String)
    (out : List (String × JsValue) × List (List String)) (p : String) (v : JsValue)
    (hparse : (jsonParse (env.modelText calls.length)).isSome = true)
    (h : processLevel env action fuel (result, calls) props = .ok out)
    (hp : lookupA p result = some v) :
    lookupA p out.1 = some v := by
  simp only [processLevel, bind, Except.bind, pure, Except.pure] at h
  cases hc : collectLevel env action fuel result props <;> rw [hc] at h
  · cases h
  · rename_i pr
    obtain ⟨fills, details⟩ := pr
    dsimp only at h
    by_cases hfe : fills.isEmpty
    · rw [if_pos hfe] at h
      cases h
      exact hp
    · rw [if_neg hfe] at h
      cases hg : generateObject (env.modelText calls.length) (.sStrictObject fills) <;>
        rw [hg] at h <;> dsimp only at h
      · cases h
      · rename_i output
        cases hr : applyReconciliation details output <;> rw [hr] at h
        · cases h
        · rename_i extracted
          cases h
          obtain ⟨w, hw⟩ := Option.isSome_iff_exists.mp hparse
          obtain ⟨hout, hacc⟩ := generateObject_parsed _ _ _ _ hw hg
          subst hout
          obtain ⟨fs0, hobj, hkeys0⟩ := acceptsStrict_obj fills output hacc
          subst hobj
          obtain ⟨fs', hext, hkeys⟩ := applyReconciliation_keys details fs0 extracted hr
          subst hext
          show lookupA p (mergeSpread result (.obj fs')) = some v
          rw [lookupA_mergeSpread_notin p result fs' ?_]
          · exact hp
          · intro kv hkv heq
            have hmem : kv.1 ∈ fs0.map Prod.fst := by rw [← hkeys]; exact List.mem_map_of_mem Prod.fst hkv
            rcases List.mem_map.mp hmem with ⟨kv0, hkv0, hfst⟩
            have hany := hkeys0 kv0 hkv0
            rcases List.any_eq_true.mp hany with ⟨q, hq, hqb⟩
            have hqeq : q.1 = kv0.1 := by simpa using hqb
            have hfill := collectLevel_fills env action fuel result props fills details hc q.1
              (List.mem_map_of_mem Prod.fst hq)
            obtain ⟨pp, _, _, hnokey⟩ := hfill
            rw [hqeq, hfst, heq] at hnokey
            rw [hasKeyA_of_lookupA p result v hp] at hnokey
            cases hnokey

theorem resolveFold_preserves (env : Env) (action : List (String × PieceProperty)) (fuel : Nat)
    (hparse : ∀ i, (jsonParse (env.modelText i)).isSome = true) :
    ∀ (levels : List (List String)) (state out : List (String × JsValue) × List (List String)),
      List.foldlM (processLevel env action fuel) state levels = .ok out →
      ∀ p v, lookupA p state.1 = some v → lookupA p out.1 = some v := by
  intro levels
  induction levels with
  | nil =>
    intro state out h p v hp
    cases h
    exact hp
  | cons lvl rest ih =>
    intro state out h p v hp
    rw [List.foldlM_cons] at h
    simp only [bind, Except.bind] at h
    cases hstep : processLevel env action fuel state lvl <;> rw [hstep] at h
    · cases h
    · rename_i st1
      exact ih st1 out h p v
        (processLevel_preserves env action fuel state.1 state.2 lvl st1 p v
          (hparse state.2.length) (by rw [← hstep]) hp)
/-- C6 (amended): schema synthesis for any auth-only type always fails with
`Unsupported property type`, and every property name appearing in any model
call of a resolution run maps to an action property whose type is outside
the orchestrator's exclusion set `skipTypes` (which contains the three auth
variants plus CUSTOM and MARKDOWN — but not SECRET_TEXT). -/
theorem auth_only_unsupported :
    (∀ env fuel name (prop : PieceProperty) input,
        (prop.type = .OAUTH2 ∨ prop.type = .BASIC_AUTH ∨ prop.type = .CUSTOM_AUTH
          ∨ prop.type = .SECRET_TEXT) →
        propertyToSchema env fuel name prop input = .error (.unsupportedPropertyType prop.type))
    ∧ (∀ env levels action op fuel res calls,
        resolveProperties env levels action op fuel = .ok (res, calls) →
        ∀ c ∈ calls, ∀ nm ∈ c, ∃ p, lookupA nm action = some p
          ∧ skipTypes.contains p.type = false) := by
  constructor
  · intro env fuel name prop input htype
    rcases htype with h | h | h | h <;>
      simp [propertyToSchema, propertyToSchemaGen, h, bind, Except.bind, throw, throwThe,
        MonadExceptOf.throw]
  · intro env levels action op fuel res calls h c hcmem nm hnm
    rw [resolveProperties] at h
    obtain ⟨_, newcalls, hcalls, hcond⟩ := resolveFold env action fuel levels _ _ h
    simp only [List.nil_append] at hcalls
    subst hcalls
    obtain ⟨p, h1, h2, _⟩ := hcond c hcmem nm hnm
    exact ⟨p, h1, h2⟩

/-- Witness for the amended C6 theorem at a concrete secret-text property. -/
theorem auth_only_unsupported_witness :
    (secretProp.type = .OAUTH2 ∨ secretProp.type = .BASIC_AUTH
      ∨ secretProp.type = .CUSTOM_AUTH ∨ secretProp.type = .SECRET_TEXT)
    ∧ propertyToSchema stubEnv 1 "token" secretProp []
        = .error (.unsupportedPropertyType secretProp.type) :=
  ⟨Or.inr (Or.inr (Or.inr rfl)),
   (auth_only_unsupported).1 stubEnv 1 "token" secretProp [] (Or.inr (Or.inr (Or.inr rfl)))⟩

/-- C6 counterexample: `skipTypes` does NOT contain SECRET_TEXT, so an
action declaring a secret-text property is not skipped — its schema
synthesis throws and the whole resolution aborts, contradicting the claim
that auth-only properties never abort resolution. -/
theorem secret_text_aborts_resolution :
    resolveProperties stubEnv [["token"]] secretAction plainOp 1
      = .error (.unsupportedPropertyType .SECRET_TEXT)
    ∧ skipTypes.contains PropertyType.SECRET_TEXT = false :=
  ⟨rfl, rfl⟩

/-- C8 (amended): a property present in the seeded accumulator stays present,
is requested in no model call, and a level whose fill set is empty leaves
state and call list untouched; moreover, whenever every model response
parses as JSON (so the strict-schema validated path is taken and the
fenced-JSON recovery never runs), the seeded value survives unchanged to the
final accumulator. Without that proviso the claim is false, see the
counterexample. -/
theorem resolveProperties_accumulator :
    (∀ env levels action op fuel res calls p,
        resolveProperties env levels action op fuel = .ok (res, calls) →
        hasKeyA p (seedResult op) = true →
        hasKeyA p res = true ∧ ∀ c ∈ calls, ¬ p ∈ c)
    ∧ (∀ env action fuel result calls props dets,
        collectLevel env action fuel result props = .ok ([], dets) →
        processLevel env action fuel (result, calls) props = .ok (result, calls))
    ∧ (∀ env levels action op fuel res calls p v,
        (∀ i, (jsonParse (env.modelText i)).isSome = true) →
        resolveProperties env levels action op fuel = .ok (res, calls) →
        lookupA p (seedResult op) = some v →
        lookupA p res = some v) := by
  refine ⟨?_, ?_, ?_⟩
  · intro env levels action op fuel res calls p h hseed
    rw [resolveProperties] at h
    obtain ⟨mono, newcalls, hcalls, hcond⟩ := resolveFold env action fuel levels _ _ h
    simp only [List.nil_append] at hcalls
    subst hcalls
    refine ⟨mono p hseed, ?_⟩
    intro c hcmem hpc
    obtain ⟨q, _, _, hkey⟩ := hcond c hcmem p hpc
    rw [hseed] at hkey
    cases hkey
  · intro env action fuel result calls props dets h
    simp only [processLevel, bind, Except.bind, pure, Except.pure]
    rw [h]
    rfl
  · intro env levels action op fuel res calls p v hparse h hseed
    rw [resolveProperties] at h
    exact resolveFold_preserves env action fuel hparse levels _ _ h p v hseed

/-- Witness for the amended C8 theorem at a concrete run. -/
theorem resolveProperties_accumulator_witness :
    (resolveProperties goodEnv [["name"]] sampleAction authOp 1
        = .ok ([("auth", some (.str "SECRET")), ("name", some (.str "Alice"))], [["name"]])
     ∧ hasKeyA "auth" (seedResult authOp) = true)
    ∧ (hasKeyA "auth"
         [("auth", (some (.str "SECRET") : JsValue)), ("name", some (.str "Alice"))] = true
       ∧ ∀ c ∈ ([["name"]] : List (List String)), ¬ "auth" ∈ c) :=
  ⟨⟨rfl, rfl⟩,
   (resolveProperties_accumulator).1 goodEnv [["name"]] sampleAction authOp 1 _ _ "auth" rfl rfl⟩

/-- C8 counterexample: with `auth` predefined, a level whose model response
is a fenced JSON block smuggling an unrequested `auth` key takes the
recovery path (which skips strict-schema validation) and the merge
overwrites the seeded value — the accumulator is mutated. -/
theorem recovery_path_mutates_accumulator :
    lookupA "auth" (seedResult authOp) = some (some (.str "SECRET"))
    ∧ resolveProperties evilEnv [["name"]] sampleAction authOp 1
        = .ok ([("auth", some (.str "evil"))], [["name"]])
    ∧ lookupA "auth" [("auth", (some (.str "evil") : JsValue))] = some (some (.str "evil")) :=
  ⟨rfl, rfl, rfl⟩

end AgentEngine
